import Mathlib

/-! # VoicePaper: content-addressed text-to-speech pipeline

A shallow embedding of the Go backend (`internal/service/tts.go`,
`internal/repository/db.go`, `pkg/minimax/client.go`, `cmd/server/main.go`)
and the properties its specification states about it.

Conventions.
* Go `string` values are modelled by `String` (valid UTF-8 text); `[]byte` by
  `List Nat` with every element below 256.
* The database, the file system and the remote provider are explicit
  parameters: the store is a value of type `DB`, the other two are oracles.
* A `go f(x)` statement is recorded as an event; the detached task is a
  separate function of the store.
-/

namespace VoicePaper

/-! ## crypto/sha256 and encoding/hex (Go standard library) -/

namespace SHA256

/-- Round constants of SHA-256 (FIPS 180-4, section 4.2.2). -/
def K : List Nat :=
  [0x428a2f98, 0x71374491, 0xb5c0fbcf, 0xe9b5dba5, 0x3956c25b, 0x59f111f1, 0x923f82a4, 0xab1c5ed5,
   0xd807aa98, 0x12835b01, 0x243185be, 0x550c7dc3, 0x72be5d74, 0x80deb1fe, 0x9bdc06a7, 0xc19bf174,
   0xe49b69c1, 0xefbe4786, 0x0fc19dc6, 0x240ca1cc, 0x2de92c6f, 0x4a7484aa, 0x5cb0a9dc, 0x76f988da,
   0x983e5152, 0xa831c66d, 0xb00327c8, 0xbf597fc7, 0xc6e00bf3, 0xd5a79147, 0x06ca6351, 0x14292967,
   0x27b70a85, 0x2e1b2138, 0x4d2c6dfc, 0x53380d13, 0x650a7354, 0x766a0abb, 0x81c2c92e, 0x92722c85,
   0xa2bfe8a1, 0xa81a664b, 0xc24b8b70, 0xc76c51a3, 0xd192e819, 0xd6990624, 0xf40e3585, 0x106aa070,
   0x19a4c116, 0x1e376c08, 0x2748774c, 0x34b0bcb5, 0x391c0cb3, 0x4ed8aa4a, 0x5b9cca4f, 0x682e6ff3,
   0x748f82ee, 0x78a5636f, 0x84c87814, 0x8cc70208, 0x90befffa, 0xa4506ceb, 0xbef9a3f7, 0xc67178f2]

/-- The eight 32-bit working words of the hash state. -/
structure State where
  a : Nat
  b : Nat
  c : Nat
  d : Nat
  e : Nat
  f : Nat
  g : Nat
  h : Nat
deriving DecidableEq, Repr

/-- Initial hash value (FIPS 180-4, section 5.3.3). -/
def H0 : State :=
  ⟨0x6a09e667, 0xbb67ae85, 0x3c6ef372, 0xa54ff53a, 0x510e527f, 0x9b05688c, 0x1f83d9ab, 0x5be0cd19⟩

/-- Addition of 32-bit words. -/
def add32 (x y : Nat) : Nat := (x + y) % 2 ^ 32

/-- Rotate a 32-bit word right by `n` bits. -/
def rotr (x n : Nat) : Nat := ((x >>> n) ||| (x <<< (32 - n))) % 2 ^ 32

/-- Bitwise complement of a 32-bit word. -/
def not32 (x : Nat) : Nat := (2 ^ 32 - 1) ^^^ (x % 2 ^ 32)

def ch (x y z : Nat) : Nat := (x &&& y) ^^^ (not32 x &&& z)
def maj (x y z : Nat) : Nat := (x &&& y) ^^^ (x &&& z) ^^^ (y &&& z)
def bigSigma0 (x : Nat) : Nat := rotr x 2 ^^^ rotr x 13 ^^^ rotr x 22
def bigSigma1 (x : Nat) : Nat := rotr x 6 ^^^ rotr x 11 ^^^ rotr x 25
def smallSigma0 (x : Nat) : Nat := rotr x 7 ^^^ rotr x 18 ^^^ (x >>> 3)
def smallSigma1 (x : Nat) : Nat := rotr x 17 ^^^ rotr x 19 ^^^ (x >>> 10)

/-- Padding: one `0x80` byte, zero bytes up to 56 modulo 64, then the message
length in bits as a 64-bit big-endian integer. -/
def pad (msg : List Nat) : List Nat :=
  let len := msg.length
  let bits := (8 * len) % 2 ^ 64
  msg ++ [0x80] ++ List.replicate ((119 - len % 64) % 64) 0 ++
    [(bits >>> 56) % 256, (bits >>> 48) % 256, (bits >>> 40) % 256, (bits >>> 32) % 256,
     (bits >>> 24) % 256, (bits >>> 16) % 256, (bits >>> 8) % 256, bits % 256]

/-- Big-endian 32-bit words of a block of bytes. -/
def words : List Nat → List Nat
  | b0 :: b1 :: b2 :: b3 :: rest =>
      (b0 * 2 ^ 24 + b1 * 2 ^ 16 + b2 * 2 ^ 8 + b3) :: words rest
  | _ => []

/-- Extend the message schedule by `n` further words. -/
def extend : Nat → List Nat → List Nat
  | 0, w => w
  | n + 1, w =>
      let i := w.length
      let x := add32 (add32 (smallSigma1 (w.getD (i - 2) 0)) (w.getD (i - 7) 0))
                 (add32 (smallSigma0 (w.getD (i - 15) 0)) (w.getD (i - 16) 0))
      extend n (w ++ [x])

/-- One round of the compression function with schedule word `w` and constant `k`. -/
def round (s : State) (kw : Nat × Nat) : State :=
  let t1 := add32 (add32 (add32 (add32 s.h (bigSigma1 s.e)) (ch s.e s.f s.g)) kw.1) kw.2
  let t2 := add32 (bigSigma0 s.a) (maj s.a s.b s.c)
  ⟨add32 t1 t2, s.a, s.b, s.c, add32 s.d t1, s.e, s.f, s.g⟩

/-- Compress one 64-byte block into the hash state. -/
def compress (s : State) (block : List Nat) : State :=
  let w := extend 48 (words block)
  let t := (K.zip w).foldl round s
  ⟨add32 s.a t.a, add32 s.b t.b, add32 s.c t.c, add32 s.d t.d,
   add32 s.e t.e, add32 s.f t.f, add32 s.g t.g, add32 s.h t.h⟩

/-- Process a padded message block by block; `n` bounds the number of blocks. -/
def blocks : Nat → State → List Nat → State
  | 0, s, _ => s
  | n + 1, s, bs =>
      match bs with
      | [] => s
      | _ => blocks n (compress s (bs.take 64)) (bs.drop 64)

/-- Big-endian bytes of a 32-bit word. -/
def wordBytes (x : Nat) : List Nat :=
  [(x >>> 24) % 256, (x >>> 16) % 256, (x >>> 8) % 256, x % 256]

/-- The 32 digest bytes of a final state. -/
def digest (s : State) : List Nat :=
  wordBytes s.a ++ wordBytes s.b ++ wordBytes s.c ++ wordBytes s.d ++
  wordBytes s.e ++ wordBytes s.f ++ wordBytes s.g ++ wordBytes s.h

/-- SHA-256 of a byte string (the function `sha256.Sum256`). -/
def sum256 (msg : List Nat) : List Nat :=
  let p := pad msg
  digest (blocks p.length H0 p)

/-- The streaming hash object returned by `sha256.New()`: the bytes written so far. -/
structure Digest where
  written : List Nat
deriving Repr

/-- Go `sha256.New()`. -/
def New : Digest := ⟨[]⟩

/-- Go `h.Write(p)`: append to the hashed stream. -/
def Digest.Write (h : Digest) (p : List Nat) : Digest := ⟨h.written ++ p⟩

/-- Go `h.Sum(b)`: append the digest of everything written so far to `b`. -/
def Digest.Sum (h : Digest) (b : List Nat) : List Nat := b ++ sum256 h.written

end SHA256

/-- The table `"0123456789abcdef"` of `encoding/hex`. -/
def hextable : List Char :=
  ['0', '1', '2', '3', '4', '5', '6', '7', '8', '9', 'a', 'b', 'c', 'd', 'e', 'f']

/-- Go `hex.EncodeToString`: two table characters per byte, `hextable[v>>4]`
then `hextable[v&0x0f]`. -/
def hexEncodeToString (src : List Nat) : String :=
  String.mk (src.flatMap fun v => [hextable.getD (v >>> 4) '0', hextable.getD (v &&& 0x0f) '0'])

/-- Go `[]byte(s)`: the UTF-8 encoding of the text. -/
def bytesOf (s : String) : List Nat :=
  (s.data.flatMap String.utf8EncodeChar).map UInt8.toNat

/-! ## internal/service/tts.go: the fingerprint -/

/-- Source: `calculateHash` (tts.go 93-97). -/
def calculateHash (s : String) : String :=
  let h := SHA256.New
  let h := h.Write (bytesOf s)
  hexEncodeToString (h.Sum [])

/-! ## path/filepath and string helpers (Go standard library, Unix) -/

namespace filepath

/-- The elements of a path between separators (`'/'`), empty ones included. -/
def splitOnSep : List Char → List (List Char)
  | [] => [[]]
  | c :: cs =>
      if c = '/' then [] :: splitOnSep cs
      else
        match splitOnSep cs with
        | [] => [[c]]
        | h :: t => (c :: h) :: t

/-- One element of the lexical clean-up of `filepath.Clean`; `stack` holds the
elements kept so far, the most recent first. Empty and `.` elements are
dropped; `..` removes the preceding real element, is dropped at the root of a
rooted path, and is kept at the start of a relative one. -/
def cleanStep (rooted : Bool) (stack : List (List Char)) (elem : List Char) : List (List Char) :=
  if elem = [] ∨ elem = ['.'] then stack
  else if elem = ['.', '.'] then
    match stack with
    | [] => if rooted then [] else [elem]
    | top :: rest => if top = ['.', '.'] then elem :: stack else rest
  else elem :: stack

/-- The lexical clean-up of `filepath.Clean` before the empty result is
replaced: the kept elements joined by single separators, after the root
separator if the path is rooted. -/
def cleanChars (path : List Char) : List Char :=
  let rooted : Bool := path.head? = some '/'
  let stack := (splitOnSep path).foldl (cleanStep rooted) []
  (if rooted then ['/'] else []) ++ ['/'].intercalate stack.reverse

/-- Go `filepath.Clean`: the shortest equivalent path by lexical processing;
the empty result is turned into `"."`. -/
def Clean (path : String) : String :=
  let out := cleanChars path.data
  if out = [] then "." else String.mk out

/-- Go `filepath.Join`: leading empty elements are ignored, the rest is joined
with the separator and cleaned; the result is empty only if every element is. -/
def Join (elem : List String) : String :=
  match elem.dropWhile (fun e => e == "") with
  | [] => ""
  | rest => Clean ("/".intercalate rest)

end filepath

/-- The characters lying entirely within the first `n` bytes of the UTF-8
encoding of a text. -/
def takeBytes : List Char → Nat → List Char
  | [], _ => []
  | c :: cs, n => if c.utf8Size ≤ n then c :: takeBytes cs (n - c.utf8Size) else []

/-- Go `s[:n]` on a string: `none` is the run-time panic raised when `n`
exceeds the length in bytes. Go cuts bytes; the result here is the same text
whenever the cut falls between two characters, as it does for every ASCII
string (hexadecimal fingerprints in particular). -/
def slicePrefix (s : String) (n : Nat) : Option String :=
  if n ≤ s.utf8ByteSize then some (String.mk (takeBytes s.data n)) else none

/-! ## internal/model/article.go and internal/repository/db.go -/

/-- Source: `model.Article`. The time stamps, the soft-delete mark (no code in
the repository deletes a record) and the `Sentences` association take no part
in the pipeline and are left out. -/
structure Article where
  ID : Nat
  Title : String
  Content : String
  AudioPath : String
  Status : String
  ContentHash : String
deriving DecidableEq, Repr

/-- The `articles` table behind the package-level handle `repository.DB`:
its rows and the next value of the auto-increment primary key. -/
structure DB where
  rows : List Article
  nextID : Nat
deriving DecidableEq, Repr

/-- The row with the least primary key, the earliest one among equals:
what `ORDER BY id LIMIT 1` selects. -/
def firstByID : List Article → Option Article
  | [] => none
  | a :: rest =>
      match firstByID rest with
      | none => some a
      | some b => if a.ID ≤ b.ID then some a else some b

/-- Source: `ArticleRepository.Create`. `fault` is the error of the insert,
if the database reports one. A zero primary key is replaced by the next
auto-increment value and written back into the record; a non-zero one must be
unused. -/
def Create (db : DB) (article : Article) (fault : Option String) : Except String (DB × Article) :=
  match fault with
  | some e => .error e
  | none =>
      if article.ID = 0 then
        let a := { article with ID := db.nextID }
        .ok (⟨db.rows ++ [a], db.nextID + 1⟩, a)
      else if db.rows.any (fun r => r.ID == article.ID) then
        .error "UNIQUE constraint failed: articles.id"
      else
        .ok (⟨db.rows ++ [article], max db.nextID (article.ID + 1)⟩, article)

/-- Source: `ArticleRepository.FindByHash`: the first record whose
`content_hash` equals `hash`; `none` stands for a non-nil error. -/
def FindByHash (db : DB) (hash : String) : Option Article :=
  firstByID (db.rows.filter fun a => a.ContentHash == hash)

/-- Source: `ArticleRepository.UpdateStatus`: sets `status` and `audio_path`
of every row whose primary key is `id`. -/
def UpdateStatus (db : DB) (id : Nat) (status audioPath : String) : DB :=
  { db with rows := db.rows.map fun a =>
      if a.ID = id then { a with Status := status, AudioPath := audioPath } else a }

/-! ## internal/service/tts.go: the orchestrator -/

/-- Effects a run of the service leaves behind, in order. -/
inductive Event where
  /-- A record was inserted (shown with its assigned primary key). -/
  | create (a : Article)
  /-- Call of `repo.UpdateStatus(id, status, audioPath)`. -/
  | updateStatus (id : Nat) (status audioPath : String)
  /-- Statement `go s.processTTS(a)`: a detached synthesis task was launched. -/
  | goProcessTTS (a : Article)
  /-- Call of `minimax.GenerateSpeech(text)`. -/
  | generateSpeech (text : String)
  /-- A successful `os.WriteFile(path, data, 0644)`. -/
  | writeFile (path : String) (data : List Nat)
deriving DecidableEq, Repr

/-- What the request path observes of its surroundings. -/
structure Env where
  /-- Whether `os.Stat(path)` returns a nil error. -/
  stat : String → Bool
  /-- The error of inserting the given record, if any. -/
  createFault : Article → Option String

/-- Result of `GetOrGenerateAudio`: the two return values, the store
afterwards and the effects performed. -/
structure Resolved where
  article : Option Article
  err : Option String
  db : DB
  events : List Event
deriving DecidableEq, Repr

/-- Source: `TTSService.GetOrGenerateAudio` (tts.go 26-61). -/
def GetOrGenerateAudio (env : Env) (db : DB) (title content : String) : Resolved :=
  let hash := calculateHash content
  match FindByHash db hash with
  | some article =>
      if article.Status == "completed" && article.AudioPath != "" then
        if env.stat article.AudioPath then
          ⟨some article, none, db, []⟩
        else
          ⟨some article, none, db, [.goProcessTTS article]⟩
      else if article.Status == "processing" then
        ⟨some article, some "audio is currently processing", db, []⟩
      else
        ⟨some article, none, db, [.goProcessTTS article]⟩
  | none =>
      let article : Article :=
        { ID := 0, Title := title, Content := content, AudioPath := "",
          Status := "pending", ContentHash := hash }
      match Create db article (env.createFault article) with
      | .error e => ⟨none, some e, db, []⟩
      | .ok (db1, article) =>
          ⟨some article, none, db1, [.create article, .goProcessTTS article]⟩

/-- How a detached task ends. -/
inductive Exit where
  | returned
  /-- The call of `GenerateSpeech` never comes back. -/
  | blocked
  /-- A run-time panic (slice bounds out of range). -/
  | panicked
deriving DecidableEq, Repr

/-- What the detached task depends on. -/
structure TaskEnv where
  /-- The outcome of `minimax.GenerateSpeech(text)`; `none` when it never returns. -/
  GenerateSpeech : String → Option (Except String (List Nat))
  /-- The error of `os.WriteFile(path, data, 0644)`, if any. -/
  writeFile : String → List Nat → Option String

/-- Result of a detached task: the store afterwards, the effects performed
and how the task ended. -/
structure TaskRun where
  db : DB
  events : List Event
  exit : Exit
deriving DecidableEq, Repr

/-- The path `processTTS` saves the audio of a record to (tts.go 76-77);
`none` when the fingerprint is shorter than 8 bytes. -/
def savePath (article : Article) : Option String :=
  match slicePrefix article.ContentHash 8 with
  | none => none
  | some h8 =>
      let filename := "audio_" ++ toString article.ID ++ "_" ++ h8 ++ ".mp3"
      some (filepath.Join ["data", "audio", filename])

/-- Source: `TTSService.processTTS` (tts.go 63-91). The errors returned by
`UpdateStatus` and `os.MkdirAll` are discarded by the code. -/
def processTTS (tenv : TaskEnv) (db : DB) (article : Article) : TaskRun :=
  let db1 := UpdateStatus db article.ID "processing" ""
  let ev1 := [Event.updateStatus article.ID "processing" "", Event.generateSpeech article.Content]
  match tenv.GenerateSpeech article.Content with
  | none => ⟨db1, ev1, .blocked⟩
  | some (.error _) =>
      ⟨UpdateStatus db1 article.ID "failed" "",
       ev1 ++ [.updateStatus article.ID "failed" ""], .returned⟩
  | some (.ok audioData) =>
      match savePath article with
      | none => ⟨db1, ev1, .panicked⟩
      | some path =>
          match tenv.writeFile path audioData with
          | some _ =>
              ⟨UpdateStatus db1 article.ID "failed" "",
               ev1 ++ [.updateStatus article.ID "failed" ""], .returned⟩
          | none =>
              ⟨UpdateStatus db1 article.ID "completed" path,
               ev1 ++ [.writeFile path audioData, .updateStatus article.ID "completed" path],
               .returned⟩

/-! ## pkg/minimax/client.go: the remote synthesis client -/

namespace minimax

/-- Source: `ResponseWrapper.BaseResp`. -/
structure BaseResp where
  StatusCode : Int
  StatusMsg : String
deriving DecidableEq, Repr

/-- Source: `T2AResponse`. -/
structure T2AResponse where
  BaseResp : BaseResp
  TaskID : Int
deriving DecidableEq, Repr

/-- Source: `QueryResponse`. -/
structure QueryResponse where
  BaseResp : BaseResp
  Status : String
  FileID : Int
deriving DecidableEq, Repr

/-- Source: `RetrieveResponse`. -/
structure RetrieveResponse where
  BaseResp : BaseResp
  DownloadURL : String
deriving DecidableEq, Repr

/-- A response body after JSON decoding into a zeroed struct: the value the
struct holds afterwards and the decoder's error, if any. -/
structure Decoded (α : Type) where
  value : α
  err : Option String
deriving DecidableEq, Repr

/-- Kind of an archive entry (`tar.Header.Typeflag`). -/
inductive Typeflag where
  | dir
  | reg
  | other
deriving DecidableEq, Repr

/-- One entry of a tar archive. -/
structure TarEntry where
  Name : String
  Typeflag : Typeflag
  Data : List Nat
deriving DecidableEq, Repr

/-- The provider as seen through `net/http`. `.error` is a transport error
(`client.Do` or `http.Get` failing). The status request takes the number of
status requests made before it, so that answers may change over time. -/
structure Provider where
  submit : String → Except String (Decoded T2AResponse)
  query : Nat → Int → Except String (Decoded QueryResponse)
  retrieve : Int → Except String (Decoded RetrieveResponse)
  download : String → Except String (List TarEntry)

/-- Requests sent to the provider, in order. -/
inductive Call where
  | submit (text : String)
  | query (taskID : Int)
  | retrieve (fileID : Int)
  | download (url : String)
deriving DecidableEq, Repr

/-- Source: `initiateTask` (client.go 108-143). The decoder's error is discarded. -/
def initiateTask (p : Provider) (text : String) : Except String Int :=
  match p.submit text with
  | .error e => .error e
  | .ok resp =>
      let t2aResp := resp.value
      if t2aResp.BaseResp.StatusCode ≠ 0 then
        .error ("API Error: " ++ t2aResp.BaseResp.StatusMsg)
      else .ok t2aResp.TaskID

/-- Source: `queryStatus` (client.go 145-160); `n` status requests were made before. -/
def queryStatus (p : Provider) (n : Nat) (taskID : Int) : Except String (String × Int) :=
  match p.query n taskID with
  | .error e => .error e
  | .ok resp =>
      let queryResp := resp.value
      .ok (queryResp.Status, queryResp.FileID)

/-- Source: `getDownloadURL` (client.go 162-177). -/
def getDownloadURL (p : Provider) (fileID : Int) : Except String String :=
  match p.retrieve fileID with
  | .error e => .error e
  | .ok resp =>
      let retrieveResp := resp.value
      .ok retrieveResp.DownloadURL

/-- Source: `downloadAndExtract` (client.go 179-197). -/
def downloadAndExtract (p : Provider) (url : String) : Except String (List Nat) :=
  match p.download url with
  | .error e => .error e
  | .ok _ => .error "tar extraction not implemented in this snippet"

/-- The polling loop of `GenerateSpeech` (client.go 32-44) after `n` status
requests, run for at most `fuel` further iterations: the loop's result (the
file id, or the error `GenerateSpeech` returns) and the requests sent; `none`
when the loop is still running after `fuel` iterations. -/
def pollLoop (p : Provider) (taskID : Int) : Nat → Nat → Option (Except String Int × List Call)
  | 0, _ => none
  | fuel + 1, n =>
      match queryStatus p n taskID with
      | .error e => some (.error e, [.query taskID])
      | .ok (status, fid) =>
          if status == "Success" then some (.ok fid, [.query taskID])
          else if status == "Failed" then
            some (.error "generation failed on server side", [.query taskID])
          else
            match pollLoop p taskID fuel (n + 1) with
            | none => none
            | some (r, calls) => some (r, .query taskID :: calls)

/-- Source: `GenerateSpeech` (client.go 23-56), with its polling loop bounded
by `fuel` iterations: the return value and the requests sent, `none` when the
loop is still running after `fuel` iterations. -/
def GenerateSpeech (fuel : Nat) (p : Provider) (text : String) :
    Option (Except String (List Nat) × List Call) :=
  match initiateTask p text with
  | .error e => some (.error e, [.submit text])
  | .ok taskID =>
      match pollLoop p taskID fuel 0 with
      | none => none
      | some (.error e, calls) => some (.error e, .submit text :: calls)
      | some (.ok fileID, calls) =>
          match getDownloadURL p fileID with
          | .error e => some (.error e, .submit text :: calls ++ [.retrieve fileID])
          | .ok downloadURL =>
              some (downloadAndExtract p downloadURL,
                    .submit text :: calls ++ [.retrieve fileID, .download downloadURL])

end minimax

/-- The detached task wired to the remote synthesis client, as in the
running service; the polling loop is bounded by `fuel` iterations. -/
def taskEnvOf (fuel : Nat) (p : minimax.Provider) (writeFile : String → List Nat → Option String) :
    TaskEnv :=
  { GenerateSpeech := fun text => (minimax.GenerateSpeech fuel p text).map Prod.fst
    writeFile := writeFile }

/-! ## main.go: the command-line reference client -/

namespace cli

/-- Source: `queryStatus` (main.go 211-239). -/
def queryStatus (p : minimax.Provider) (n : Nat) (taskID : Int) : Except String (String × Int) :=
  match p.query n taskID with
  | .error e => .error e
  | .ok resp =>
      match resp.err with
      | some e => .error ("failed to unmarshal response: " ++ e)
      | none =>
          let queryResp := resp.value
          if queryResp.BaseResp.StatusCode ≠ 0 then
            .error ("API Error: " ++ queryResp.BaseResp.StatusMsg ++ " (Code: " ++
              toString queryResp.BaseResp.StatusCode ++ ")")
          else .ok (queryResp.Status, queryResp.FileID)

/-- Source: `getDownloadURL` (main.go 241-269). -/
def getDownloadURL (p : minimax.Provider) (fileID : Int) : Except String String :=
  match p.retrieve fileID with
  | .error e => .error e
  | .ok resp =>
      match resp.err with
      | some e => .error ("failed to unmarshal response: " ++ e)
      | none =>
          let retrieveResp := resp.value
          if retrieveResp.BaseResp.StatusCode ≠ 0 then
            .error ("API Error: " ++ retrieveResp.BaseResp.StatusMsg ++ " (Code: " ++
              toString retrieveResp.BaseResp.StatusCode ++ ")")
          else .ok retrieveResp.DownloadURL

end cli

/-! ## cmd/server/main.go: seeding from the legacy manifest -/

/-- One entry of `manifest.json`. -/
structure ManifestItem where
  ID : String
  Title : String
  Markdown : String
  Audio : String
deriving DecidableEq, Repr

/-- What `seedLegacyData` observes of its surroundings besides `Env`. -/
structure SeedEnv where
  /-- Contents of a file, `none` when `os.ReadFile` fails. -/
  readFile : String → Option String
  /-- The articles of a manifest text, `none` when `json.Unmarshal` fails. -/
  parseManifest : String → Option (List ManifestItem)

/-- The body of the loop of `seedLegacyData` (main.go 77-119) for one item:
the store afterwards and the effects performed. Copying the legacy audio file
(its errors are discarded) does not touch the store and is not recorded. -/
def seedItem (env : Env) (senv : SeedEnv) (acc : DB × List Event) (item : ManifestItem) :
    DB × List Event :=
  let mdPath := filepath.Join ["../data", item.Markdown]
  match senv.readFile mdPath with
  | none => acc
  | some mdContent =>
      let r := GetOrGenerateAudio env acc.1 item.Title mdContent
      match r.err, r.article with
      | some _, _ => (r.db, acc.2 ++ r.events)
      | none, none => (r.db, acc.2 ++ r.events)
      | none, some article =>
          if article.Status != "completed" then
            let audioPath := filepath.Join ["../data", item.Audio]
            if env.stat audioPath then
              let newFilename := "legacy_" ++ item.Audio
              let newPath := filepath.Join ["data", "audio", newFilename]
              (UpdateStatus r.db article.ID "completed" newPath,
               acc.2 ++ r.events ++ [.updateStatus article.ID "completed" newPath])
            else (r.db, acc.2 ++ r.events)
          else (r.db, acc.2 ++ r.events)

/-- Source: `seedLegacyData` (main.go 52-120). -/
def seedLegacyData (env : Env) (senv : SeedEnv) (db : DB) : DB × List Event :=
  match senv.readFile "../data/manifest.json" with
  | none => (db, [])
  | some content =>
      match senv.parseManifest content with
      | none => (db, [])
      | some articles => articles.foldl (seedItem env senv) (db, [])

/-! ## Vocabulary of the specification -/

/-- Base-16 digits of a byte, most significant first, in lower case: the
textbook hexadecimal rendering, independent of the table lookup of
`hexEncodeToString`. -/
def lowerHexByte (v : Nat) : List Char :=
  [Nat.digitChar (v / 16), Nat.digitChar (v % 16)]

/-- Lowercase hexadecimal encoding of a byte string. -/
def lowerHex (src : List Nat) : String :=
  String.mk (src.flatMap lowerHexByte)

/-- The four lifecycle states of a Document. -/
def validStatus (s : String) : Prop :=
  s = "pending" ∨ s = "processing" ∨ s = "completed" ∨ s = "failed"

instance (s : String) : Decidable (validStatus s) := by
  unfold validStatus; infer_instance

/-- State-machine safety of the store: every status is one of the four
lifecycle states and a completed record has a non-empty audio path. -/
def StoreInv (db : DB) : Prop :=
  ∀ a ∈ db.rows, validStatus a.Status ∧ (a.Status = "completed" → a.AudioPath ≠ "")

instance (db : DB) : Decidable (StoreInv db) := by
  unfold StoreInv; infer_instance

/-- The effect of one recorded event on a store: inserts and status updates
write, everything else leaves it alone. -/
def applyEvent (db : DB) : Event → DB
  | .create a => ⟨db.rows ++ [a], max db.nextID (a.ID + 1)⟩
  | .updateStatus id status audioPath => UpdateStatus db id status audioPath
  | _ => db

/-- The calls of `UpdateStatus` among the events, in order. -/
def statusUpdates : List Event → List (Nat × String × String)
  | [] => []
  | .updateStatus id status audioPath :: rest => (id, status, audioPath) :: statusUpdates rest
  | _ :: rest => statusUpdates rest

/-- The texts `GenerateSpeech` was called with, in order. -/
def synthesisCalls : List Event → List String
  | [] => []
  | .generateSpeech text :: rest => text :: synthesisCalls rest
  | _ :: rest => synthesisCalls rest

/-- The records detached tasks were launched for, in order. -/
def launchedTasks : List Event → List Article
  | [] => []
  | .goProcessTTS a :: rest => a :: launchedTasks rest
  | _ :: rest => launchedTasks rest

/-- The records inserted, in order. -/
def createdRecords : List Event → List Article
  | [] => []
  | .create a :: rest => a :: createdRecords rest
  | _ :: rest => createdRecords rest

/-! ## Sample data -/

/-- The fingerprint of `"Hello world"`. -/
def helloHash : String := "64ec88ca00b268e5ba1a35678a1b5316d212f4f366b2477232534a8aeca37f3c"

/-- A record for `"Hello world"` with the given primary key, status and audio path. -/
def helloArticle (id : Nat) (status audioPath : String) : Article :=
  { ID := id, Title := "Greeting", Content := "Hello world", AudioPath := audioPath,
    Status := status, ContentHash := helloHash }

/-- Surroundings in which exactly the listed files exist and inserts succeed. -/
def envWithFiles (files : List String) : Env :=
  { stat := fun path => files.contains path
    createFault := fun _ => none }

/-- The path `processTTS` saves the audio of record 1 for `"Hello world"` to. -/
def helloPath : String := "data/audio/audio_1_64ec88ca.mp3"

/-- A store holding one record for `"Hello world"`, with primary key 1. -/
def helloDB (status audioPath : String) : DB :=
  ⟨[helloArticle 1 status audioPath], 2⟩

/-- A detached task whose synthesis returns the given outcome and whose file
writes succeed. -/
def taskEnvWith (gen : Except String (List Nat)) : TaskEnv :=
  { GenerateSpeech := fun _ => some gen
    writeFile := fun _ _ => none }

/-- The terminal status update prescribed for an outcome `gen` of the
synthesis: ("failed", "") if the synthesis returned an error or writing the
audio to `path` failed, ("completed", `path`) otherwise. -/
def terminalUpdate (id : Nat) (path : String) (gen : Except String (List Nat))
    (writeFile : String → List Nat → Option String) : Nat × String × String :=
  match gen with
  | .error _ => (id, "failed", "")
  | .ok data =>
      if (writeFile path data).isSome then (id, "failed", "") else (id, "completed", path)

/-- A write that keeps the state-machine invariant of any store it is applied to. -/
def SafeEvent : Event → Prop
  | .create a => validStatus a.Status ∧ (a.Status = "completed" → a.AudioPath ≠ "")
  | .updateStatus _ status audioPath =>
      validStatus status ∧ (status = "completed" → audioPath ≠ "")
  | _ => True

/-- A provider that answers every request without transport error: the given
submit and retrieve responses, the `n`-th listed status response to the `n`-th
status request ("Processing" once the list is used up), and the given archive. -/
def scriptedProvider (submit : minimax.T2AResponse) (polls : List minimax.QueryResponse)
    (retrieve : minimax.RetrieveResponse) (archive : List minimax.TarEntry) :
    minimax.Provider :=
  { submit := fun _ => .ok ⟨submit, none⟩
    query := fun n _ => .ok ⟨polls.getD n ⟨⟨0, "success"⟩, "Processing", 0⟩, none⟩
    retrieve := fun _ => .ok ⟨retrieve, none⟩
    download := fun _ => .ok archive }

/-- A run in which everything succeeds: task 7 is accepted, the second status
request reports "Success" with file id 42, the retrieve request returns a
download URL and the archive holds one regular file `speech.mp3`. -/
def happyProvider : minimax.Provider :=
  scriptedProvider ⟨⟨0, "success"⟩, 7⟩
    [⟨⟨0, "success"⟩, "Processing", 0⟩, ⟨⟨0, "success"⟩, "Success", 42⟩]
    ⟨⟨0, "success"⟩, "https://files.example/42.tar"⟩
    [⟨"speech.mp3", .reg, [73, 68, 51]⟩]

/-- A run in which the first status response and the retrieve response carry a
non-zero `base_resp.status_code` (and so no status, file id or URL). -/
def faultyProvider : minimax.Provider :=
  scriptedProvider ⟨⟨0, "success"⟩, 7⟩
    [⟨⟨1002, "rate limit"⟩, "", 0⟩, ⟨⟨0, "success"⟩, "Success", 42⟩]
    ⟨⟨1004, "not authorized"⟩, ""⟩
    []

/-- A run in which the submit response carries `base_resp.status_code` 1002. -/
def rejectingProvider : minimax.Provider :=
  scriptedProvider ⟨⟨1002, "rate limit"⟩, 0⟩ [] ⟨⟨0, "success"⟩, ""⟩ []

/-- A run from store `db` that ends in store `final` after the recorded
`events` is stepwise safe when `final` is `db` with the recorded writes applied
in order, the store after each step satisfies the invariant, and each recorded
write keeps the invariant of whatever store it is applied to (so also of a
store other tasks have written to in between). -/
def StepwiseSafe (db final : DB) (events : List Event) : Prop :=
  final = events.foldl applyEvent db ∧
  (∀ n, StoreInv ((events.take n).foldl applyEvent db)) ∧
  (∀ e ∈ events, ∀ d, StoreInv d → StoreInv (applyEvent d e))

/-! ## main.go: archive extraction of the command-line client -/

/-- Go `strings.HasSuffix`. -/
def HasSuffix (s suffix : String) : Bool :=
  suffix.data.isSuffixOf s.data

namespace filepath

/-- Go `filepath.Dir`: the path up to its last separator, cleaned. -/
def Dir (path : String) : String :=
  Clean (String.mk (path.data.reverse.dropWhile (fun c => c != '/')).reverse)

end filepath

namespace cli

/-- An opened archive as `tar.Reader` delivers it: the entries in order,
then the error `tr.Next()` reports in place of `io.EOF`, if any. -/
structure TarStream where
  entries : List minimax.TarEntry
  readErr : Option String

/-- The file system as seen by `extractTar`: each field gives the outcome of
the call, an error if any. -/
structure FsEnv where
  /-- Operations `os.Open(tarPath)` and `tar.NewReader`. -/
  openTar : String → Except String TarStream
  /-- Call `os.MkdirAll(path, 0755)`. -/
  mkdirAll : String → Option String
  /-- Call `os.Create(path)`. -/
  create : String → Option String
  /-- Call `io.Copy(f, tr)` into the file created at `path`. -/
  copy : String → List Nat → Option String

/-- The loop of `extractTar` (main.go 298-333) over the entries still to be
read, `mp3Path` being the value of the variable of that name so far. -/
def extractEntries (fs : FsEnv) (destDir : String) (readErr : Option String) :
    List minimax.TarEntry → String → Except String String
  | [], mp3Path =>
      match readErr with
      | some e => .error e
      | none => .ok mp3Path
  | header :: rest, mp3Path =>
      let target := filepath.Join [destDir, header.Name]
      match header.Typeflag with
      | .dir =>
          match fs.mkdirAll target with
          | some e => .error e
          | none => extractEntries fs destDir readErr rest mp3Path
      | .reg =>
          match fs.mkdirAll (filepath.Dir target) with
          | some e => .error e
          | none =>
              match fs.create target with
              | some e => .error e
              | none =>
                  match fs.copy target header.Data with
                  | some e => .error e
                  | none =>
                      extractEntries fs destDir readErr rest
                        (if HasSuffix header.Name ".mp3" then target else mp3Path)
      | .other => extractEntries fs destDir readErr rest mp3Path

/-- Source: `extractTar` (main.go 288-335). -/
def extractTar (fs : FsEnv) (tarPath destDir : String) : Except String String :=
  match fs.openTar tarPath with
  | .error e => .error e
  | .ok tar => extractEntries fs destDir tar.readErr tar.entries ""

end cli

/-! ## Vocabulary of archive extraction -/

/-- A regular-file entry whose name ends in ".mp3". -/
def isAudioEntry (e : minimax.TarEntry) : Bool :=
  e.Typeflag == .reg && HasSuffix e.Name ".mp3"

/-- The target path of the first audio entry of an archive, if there is one. -/
def firstAudioTarget (destDir : String) (entries : List minimax.TarEntry) : Option String :=
  (entries.find? isAudioEntry).map fun e => filepath.Join [destDir, e.Name]

/-- The target path of the last audio entry of an archive, if there is one. -/
def lastAudioTarget (destDir : String) (entries : List minimax.TarEntry) : Option String :=
  (entries.filter isAudioEntry).getLast?.map fun e => filepath.Join [destDir, e.Name]

/-- A file system on which the archive at `tarPath` holds the given entries,
is read to its end, and every write succeeds. -/
def healthyFs (tarPath : String) (entries : List minimax.TarEntry) : cli.FsEnv :=
  { openTar := fun path =>
      if path = tarPath then .ok ⟨entries, none⟩ else .error "no such file or directory"
    mkdirAll := fun _ => none
    create := fun _ => none
    copy := fun _ _ => none }

/-- An archive with a directory and two audio files. -/
def twoTrackArchive : List minimax.TarEntry :=
  [⟨"out", .dir, []⟩, ⟨"out/intro.mp3", .reg, [73, 68, 51]⟩, ⟨"out/notes.txt", .reg, [104, 105]⟩,
   ⟨"out/speech.mp3", .reg, [73, 68, 51, 4]⟩]

/-- An archive with a single audio file. -/
def oneTrackArchive : List minimax.TarEntry :=
  [⟨"out", .dir, []⟩, ⟨"out/speech.mp3", .reg, [73, 68, 51, 4]⟩, ⟨"out/notes.txt", .reg, [104, 105]⟩]

/-! ## Vocabulary of the polling loop -/

/-- Whether a status request ends the polling loop of `GenerateSpeech`: a
transport error, status "Success" or status "Failed". Every other status
string keeps the loop going. -/
def terminalPoll (r : Except String (minimax.Decoded minimax.QueryResponse)) : Bool :=
  match r with
  | .error _ => true
  | .ok resp => resp.value.Status == "Success" || resp.value.Status == "Failed"

/-- The first terminal result of the status requests for `taskID` occurs at index `n`. -/
def firstTerminalAt (p : minimax.Provider) (taskID : Int) (n : Nat) : Prop :=
  terminalPoll (p.query n taskID) = true ∧ ∀ k < n, terminalPoll (p.query k taskID) = false

/-- The task ids of the status requests among the calls, in order. -/
def pollRequests : List minimax.Call → List Int
  | [] => []
  | .query taskID :: rest => taskID :: pollRequests rest
  | _ :: rest => pollRequests rest

/-- The file ids of the retrieve requests among the calls, in order. -/
def retrieveRequests : List minimax.Call → List Int
  | [] => []
  | .retrieve fileID :: rest => fileID :: retrieveRequests rest
  | _ :: rest => retrieveRequests rest

/-- What the polling loop makes of its terminal result: the file id of a
"Success", the transport error, or the error for "Failed". -/
def pollOutcome (r : Except String (minimax.Decoded minimax.QueryResponse)) : Except String Int :=
  match r with
  | .error e => .error e
  | .ok resp =>
      if resp.value.Status == "Success" then .ok resp.value.FileID
      else .error "generation failed on server side"

/-! ## Vocabulary of artifact naming -/

/-- A fingerprint as `calculateHash` produces it: 64 characters drawn from `0-9a-f`. -/
def IsFingerprint (h : String) : Prop :=
  h.length = 64 ∧ ∀ c ∈ h.data, c ∈ hextable

instance (h : String) : Decidable (IsFingerprint h) := by
  unfold IsFingerprint; infer_instance

/-- The decimal digit characters. -/
def decimalDigits : List Char := ['0', '1', '2', '3', '4', '5', '6', '7', '8', '9']

/-- The number a string of decimal digits denotes, continuing from `acc`. -/
def decodeDecimal (acc : Nat) (l : List Char) : Nat :=
  l.foldl (fun a c => 10 * a + (c.toNat - 48)) acc

/-- The managed audio path the specification names: the fixed directory, the
decimal record id and the first 8 characters of the fingerprint. -/
def managedPath (id : Nat) (fingerprint : String) : String :=
  "data/audio/audio_" ++ toString id ++ "_" ++ String.mk (fingerprint.data.take 8) ++ ".mp3"

/-- A 64-character text that is not a fingerprint: it starts with path separators. -/
def slashedHash : String :=
  "/../../x00000000000000000000000000000000000000000000000000000000"

/-! ## Fingerprint lemmas -/

theorem hextable_getD_mem (n : Nat) : hextable.getD n '0' ∈ hextable := by
  by_cases h : n < 16
  · interval_cases n <;> decide
  · rw [List.getD_eq_default _ _ (by simpa [hextable] using h)]
    decide

theorem hexEncodeToString_length (src : List Nat) :
    (hexEncodeToString src).length = 2 * src.length := by
  show (src.flatMap _).length = _
  induction src with
  | nil => rfl
  | cons v rest ih =>
      simp only [List.flatMap_cons, List.length_append, List.length_cons, List.length_nil, ih]
      omega

theorem hexEncodeToString_mem (src : List Nat) :
    ∀ c ∈ (hexEncodeToString src).data, c ∈ hextable := by
  intro c hc
  simp only [hexEncodeToString, List.mem_flatMap, List.mem_cons, List.mem_singleton,
    List.not_mem_nil, or_false] at hc
  obtain ⟨v, _, rfl | rfl⟩ := hc
  · exact hextable_getD_mem _
  · exact hextable_getD_mem _

theorem hex_byte_eq : ∀ v < 256,
    [hextable.getD (v >>> 4) '0', hextable.getD (v &&& 0x0f) '0'] = lowerHexByte v := by
  intro v hv
  interval_cases v <;> rfl

theorem hexEncodeToString_eq_lowerHex (src : List Nat) (h : ∀ v ∈ src, v < 256) :
    hexEncodeToString src = lowerHex src := by
  unfold hexEncodeToString lowerHex
  congr 1
  induction src with
  | nil => rfl
  | cons v rest ih =>
      simp only [List.flatMap_cons]
      rw [hex_byte_eq v (h v (List.mem_cons_self _ _)),
        ih (fun w hw => h w (List.mem_cons_of_mem _ hw))]

theorem sum256_length (msg : List Nat) : (SHA256.sum256 msg).length = 32 := by
  unfold SHA256.sum256 SHA256.digest SHA256.wordBytes
  rfl

theorem sum256_bytes (msg : List Nat) : ∀ v ∈ SHA256.sum256 msg, v < 256 := by
  intro v hv
  simp only [SHA256.sum256, SHA256.digest, SHA256.wordBytes, List.mem_append, List.mem_cons,
    List.mem_singleton, List.not_mem_nil, or_false] at hv
  rcases hv with ((((((h | h) | h) | h) | h) | h) | h) | h <;>
    rcases h with h | h | h | h <;> subst h <;> exact Nat.mod_lt _ (by decide)

theorem Digest_Sum_nil (h : SHA256.Digest) : h.Sum [] = SHA256.sum256 h.written :=
  List.nil_append _

theorem Digest_Write_New (b : List Nat) : (SHA256.New.Write b).written = b :=
  List.nil_append _

theorem calculateHash_eq (s : String) :
    calculateHash s = hexEncodeToString (SHA256.sum256 (bytesOf s)) :=
  calc calculateHash s
      = hexEncodeToString ((SHA256.New.Write (bytesOf s)).Sum []) := rfl
    _ = hexEncodeToString (SHA256.sum256 (SHA256.New.Write (bytesOf s)).written) :=
        congrArg hexEncodeToString (Digest_Sum_nil _)
    _ = hexEncodeToString (SHA256.sum256 (bytesOf s)) := by rw [Digest_Write_New]

theorem calculateHash_length (s : String) : (calculateHash s).length = 64 := by
  rw [calculateHash_eq, hexEncodeToString_length, sum256_length]

theorem hello_bytes : (bytesOf "Hello world").length = 11 := by decide

set_option maxRecDepth 100000 in
theorem hello_hash : calculateHash "Hello world" = helloHash := by decide

/-! ## Orchestrator lemmas -/

theorem GetOrGenerateAudio_hit (env : Env) (db : DB) (title content : String) (a : Article)
    (hfind : FindByHash db (calculateHash content) = some a)
    (hstatus : a.Status = "completed") (hpath : a.AudioPath ≠ "")
    (hfile : env.stat a.AudioPath = true) :
    GetOrGenerateAudio env db title content = ⟨some a, none, db, []⟩ := by
  unfold GetOrGenerateAudio
  simp [hfind, hstatus, hpath, hfile]

theorem GetOrGenerateAudio_missing_file (env : Env) (db : DB) (title content : String)
    (a : Article) (hfind : FindByHash db (calculateHash content) = some a)
    (hstatus : a.Status = "completed") (hpath : a.AudioPath ≠ "")
    (hfile : env.stat a.AudioPath = false) :
    GetOrGenerateAudio env db title content = ⟨some a, none, db, [.goProcessTTS a]⟩ := by
  unfold GetOrGenerateAudio
  simp [hfind, hstatus, hpath, hfile]

theorem GetOrGenerateAudio_processing (env : Env) (db : DB) (title content : String)
    (a : Article) (hfind : FindByHash db (calculateHash content) = some a)
    (hstatus : a.Status = "processing") :
    GetOrGenerateAudio env db title content =
      ⟨some a, some "audio is currently processing", db, []⟩ := by
  unfold GetOrGenerateAudio
  simp [hfind, hstatus]

theorem GetOrGenerateAudio_other (env : Env) (db : DB) (title content : String)
    (a : Article) (hfind : FindByHash db (calculateHash content) = some a)
    (hnot : ¬ (a.Status = "completed" ∧ a.AudioPath ≠ "")) (hproc : a.Status ≠ "processing") :
    GetOrGenerateAudio env db title content = ⟨some a, none, db, [.goProcessTTS a]⟩ := by
  unfold GetOrGenerateAudio
  have h1 : (a.Status == "completed" && a.AudioPath != "") = false := by
    by_cases hs : a.Status = "completed"
    · have hp : a.AudioPath = "" := by
        by_contra hp
        exact hnot ⟨hs, hp⟩
      simp [hs, hp]
    · simp [hs]
  simp [hfind, h1, hproc]

theorem GetOrGenerateAudio_new (env : Env) (db : DB) (title content : String)
    (hfind : FindByHash db (calculateHash content) = none)
    (hins : env.createFault ⟨0, title, content, "", "pending", calculateHash content⟩ = none) :
    GetOrGenerateAudio env db title content =
      ⟨some ⟨db.nextID, title, content, "", "pending", calculateHash content⟩, none,
       ⟨db.rows ++ [⟨db.nextID, title, content, "", "pending", calculateHash content⟩],
        db.nextID + 1⟩,
       [.create ⟨db.nextID, title, content, "", "pending", calculateHash content⟩,
        .goProcessTTS ⟨db.nextID, title, content, "", "pending", calculateHash content⟩]⟩ := by
  unfold GetOrGenerateAudio
  simp [hfind, hins, Create]

theorem FindByHash_helloDB (status audioPath : String) :
    FindByHash (helloDB status audioPath) (calculateHash "Hello world") =
      some (helloArticle 1 status audioPath) := by
  rw [hello_hash]
  simp [FindByHash, helloDB, helloArticle, firstByID]

/-! ## Path and task lemmas -/

theorem Clean_ne_empty (path : String) : filepath.Clean path ≠ "" := by
  unfold filepath.Clean
  simp only
  by_cases h : filepath.cleanChars path.data = []
  · rw [if_pos h]
    decide
  · rw [if_neg h]
    intro hc
    exact h (congrArg String.data hc)

theorem Join_ne_empty (e : String) (rest : List String) (he : e ≠ "") :
    filepath.Join (e :: rest) ≠ "" := by
  unfold filepath.Join
  have hb : (e == "") = false := by simpa using he
  have h : List.dropWhile (fun e => e == "") (e :: rest) = e :: rest := by
    simp [List.dropWhile, hb]
  rw [h]
  exact Clean_ne_empty _

theorem savePath_isSome (a : Article) (hlen : 8 ≤ a.ContentHash.utf8ByteSize) :
    ∃ path, savePath a = some path := by
  unfold savePath slicePrefix
  rw [if_pos hlen]
  exact ⟨_, rfl⟩

theorem savePath_ne_empty (a : Article) (path : String) (h : savePath a = some path) :
    path ≠ "" := by
  unfold savePath at h
  split at h
  · cases h
  · simp only [Option.some.injEq] at h
    rw [← h]
    exact Join_ne_empty _ _ (by decide)

theorem UpdateStatus_twice (db : DB) (id : Nat) (s1 p1 s2 p2 : String) :
    UpdateStatus (UpdateStatus db id s1 p1) id s2 p2 = UpdateStatus db id s2 p2 := by
  unfold UpdateStatus
  simp only [List.map_map, DB.mk.injEq, and_true]
  apply List.map_congr_left
  intro a _
  by_cases h : a.ID = id <;> simp [h]

theorem processTTS_of_error (tenv : TaskEnv) (db : DB) (a : Article) (e : String)
    (hgen : tenv.GenerateSpeech a.Content = some (.error e)) :
    processTTS tenv db a =
      ⟨UpdateStatus (UpdateStatus db a.ID "processing" "") a.ID "failed" "",
       [.updateStatus a.ID "processing" "", .generateSpeech a.Content,
        .updateStatus a.ID "failed" ""], .returned⟩ := by
  unfold processTTS
  simp [hgen]

theorem processTTS_of_ok (tenv : TaskEnv) (db : DB) (a : Article) (data : List Nat)
    (path : String) (hgen : tenv.GenerateSpeech a.Content = some (.ok data))
    (hpath : savePath a = some path) :
    processTTS tenv db a =
      if (tenv.writeFile path data).isSome then
        ⟨UpdateStatus (UpdateStatus db a.ID "processing" "") a.ID "failed" "",
         [.updateStatus a.ID "processing" "", .generateSpeech a.Content,
          .updateStatus a.ID "failed" ""], .returned⟩
      else
        ⟨UpdateStatus (UpdateStatus db a.ID "processing" "") a.ID "completed" path,
         [.updateStatus a.ID "processing" "", .generateSpeech a.Content,
          .writeFile path data, .updateStatus a.ID "completed" path], .returned⟩ := by
  unfold processTTS
  simp only [hgen, hpath]
  cases tenv.writeFile path data <;> simp

/-! ## Fingerprints of the records handed to the detached task -/

theorem hextable_utf8Size : ∀ c ∈ hextable, c.utf8Size = 1 := by decide

theorem utf8ByteSize_go_hex (l : List Char) (h : ∀ c ∈ l, c ∈ hextable) :
    String.utf8ByteSize.go l = l.length := by
  induction l with
  | nil => rfl
  | cons c rest ih =>
      simp only [String.utf8ByteSize.go, List.length_cons]
      rw [ih (fun x hx => h x (List.mem_cons_of_mem _ hx)),
        hextable_utf8Size c (h c (List.mem_cons_self _ _))]

theorem calculateHash_utf8ByteSize (s : String) : (calculateHash s).utf8ByteSize = 64 := by
  have h := utf8ByteSize_go_hex (calculateHash s).data
    (fun c hc => hexEncodeToString_mem _ c (by rw [calculateHash_eq] at hc; exact hc))
  have hl : (calculateHash s).data.length = 64 := calculateHash_length s
  rw [hl] at h
  exact h

theorem firstByID_mem (l : List Article) (a : Article) (h : firstByID l = some a) : a ∈ l := by
  induction l generalizing a with
  | nil => cases h
  | cons x rest ih =>
      simp only [firstByID] at h
      cases hr : firstByID rest with
      | none =>
          rw [hr] at h
          simp only [Option.some.injEq] at h
          rw [← h]
          exact List.mem_cons_self _ _
      | some b =>
          rw [hr] at h
          simp only at h
          split_ifs at h
          · simp only [Option.some.injEq] at h
            rw [← h]
            exact List.mem_cons_self _ _
          · simp only [Option.some.injEq] at h
            rw [← h]
            exact List.mem_cons_of_mem _ (ih b hr)

theorem FindByHash_hash (db : DB) (hash : String) (a : Article)
    (h : FindByHash db hash = some a) : a ∈ db.rows ∧ a.ContentHash = hash := by
  have hm := firstByID_mem _ a h
  simp only [List.mem_filter, beq_iff_eq] at hm
  exact hm

theorem launched_task_fingerprint (env : Env) (db : DB) (title content : String) (a : Article)
    (h : a ∈ launchedTasks (GetOrGenerateAudio env db title content).events) :
    a.ContentHash = calculateHash content ∧ 8 ≤ a.ContentHash.utf8ByteSize := by
  have key : a.ContentHash = calculateHash content := by
    unfold GetOrGenerateAudio at h
    simp only at h
    cases hf : FindByHash db (calculateHash content) with
    | some b =>
        rw [hf] at h
        simp only at h
        have hb := (FindByHash_hash db _ b hf).2
        split_ifs at h <;> simp [launchedTasks] at h <;> rw [h] <;> exact hb
    | none =>
        rw [hf] at h
        simp only [Create] at h
        cases hc : env.createFault ⟨0, title, content, "", "pending", calculateHash content⟩ with
        | some e =>
            rw [hc] at h
            simp [launchedTasks] at h
        | none =>
            rw [hc] at h
            simp [launchedTasks] at h
            rw [h]
  refine ⟨key, ?_⟩
  rw [key, calculateHash_utf8ByteSize]
  decide

/-! ## Invariant lemmas -/

theorem StoreInv_UpdateStatus (db : DB) (id : Nat) (status audioPath : String)
    (hinv : StoreInv db) (hs : validStatus status)
    (hp : status = "completed" → audioPath ≠ "") :
    StoreInv (UpdateStatus db id status audioPath) := by
  intro a ha
  simp only [UpdateStatus, List.mem_map] at ha
  obtain ⟨b, hb, rfl⟩ := ha
  by_cases h : b.ID = id
  · rw [if_pos h]
    exact ⟨hs, hp⟩
  · rw [if_neg h]
    exact hinv b hb

theorem StoreInv_applyEvent (e : Event) (he : SafeEvent e) (d : DB) (hd : StoreInv d) :
    StoreInv (applyEvent d e) := by
  cases e with
  | create a =>
      intro b hb
      simp only [applyEvent, List.mem_append, List.mem_singleton] at hb
      rcases hb with hb | rfl
      · exact hd b hb
      · exact he
  | updateStatus id status audioPath =>
      exact StoreInv_UpdateStatus d id status audioPath hd he.1 he.2
  | goProcessTTS a => exact hd
  | generateSpeech text => exact hd
  | writeFile path data => exact hd

theorem StoreInv_foldl (events : List Event) (hsafe : ∀ e ∈ events, SafeEvent e) :
    ∀ d, StoreInv d → StoreInv (events.foldl applyEvent d) := by
  induction events with
  | nil => intro d hd; exact hd
  | cons e rest ih =>
      intro d hd
      exact ih (fun x hx => hsafe x (List.mem_cons_of_mem _ hx)) _
        (StoreInv_applyEvent e (hsafe e (List.mem_cons_self _ _)) d hd)

theorem StepwiseSafe_of_safe (db final : DB) (events : List Event) (hinv : StoreInv db)
    (hreplay : final = events.foldl applyEvent db) (hsafe : ∀ e ∈ events, SafeEvent e) :
    StepwiseSafe db final events :=
  ⟨hreplay,
   fun _ => StoreInv_foldl _ (fun e he => hsafe e (List.mem_of_mem_take he)) db hinv,
   fun e he d hd => StoreInv_applyEvent e (hsafe e he) d hd⟩

theorem GetOrGenerateAudio_safe (env : Env) (db : DB) (title content : String) :
    (GetOrGenerateAudio env db title content).db =
      (GetOrGenerateAudio env db title content).events.foldl applyEvent db ∧
    ∀ e ∈ (GetOrGenerateAudio env db title content).events, SafeEvent e := by
  unfold GetOrGenerateAudio
  simp only
  cases FindByHash db (calculateHash content) with
  | some a =>
      simp only
      split_ifs <;> simp [applyEvent, SafeEvent]
  | none =>
      simp only [Create]
      cases env.createFault ⟨0, title, content, "", "pending", calculateHash content⟩ with
      | some e => simp
      | none => simp [applyEvent, SafeEvent, validStatus]

theorem processTTS_safe (tenv : TaskEnv) (db : DB) (a : Article) :
    (processTTS tenv db a).db = (processTTS tenv db a).events.foldl applyEvent db ∧
    ∀ e ∈ (processTTS tenv db a).events, SafeEvent e := by
  unfold processTTS
  simp only
  cases tenv.GenerateSpeech a.Content with
  | none => simp [applyEvent, SafeEvent, validStatus]
  | some gen =>
      cases gen with
      | error e => simp [applyEvent, SafeEvent, validStatus]
      | ok data =>
          simp only
          cases hp : savePath a with
          | none => simp [applyEvent, SafeEvent, validStatus]
          | some path =>
              simp only
              cases tenv.writeFile path data with
              | some e => simp [applyEvent, SafeEvent, validStatus]
              | none =>
                  simp [applyEvent, SafeEvent, validStatus]
                  exact savePath_ne_empty a path hp

theorem seedItem_safe (env : Env) (senv : SeedEnv) (db : DB) (acc : DB × List Event)
    (item : ManifestItem) (hreplay : acc.1 = acc.2.foldl applyEvent db)
    (hsafe : ∀ e ∈ acc.2, SafeEvent e) :
    (seedItem env senv acc item).1 = (seedItem env senv acc item).2.foldl applyEvent db ∧
    ∀ e ∈ (seedItem env senv acc item).2, SafeEvent e := by
  unfold seedItem
  simp only
  cases senv.readFile (filepath.Join ["../data", item.Markdown]) with
  | none => exact ⟨hreplay, hsafe⟩
  | some mdContent =>
      simp only
      obtain ⟨hr, hs⟩ := GetOrGenerateAudio_safe env acc.1 item.Title mdContent
      have hr2 : (GetOrGenerateAudio env acc.1 item.Title mdContent).db =
          (acc.2 ++ (GetOrGenerateAudio env acc.1 item.Title mdContent).events).foldl
            applyEvent db := by
        rw [List.foldl_append, ← hreplay]
        exact hr
      have hs2 : ∀ e ∈ acc.2 ++ (GetOrGenerateAudio env acc.1 item.Title mdContent).events,
          SafeEvent e := by
        intro e he
        rcases List.mem_append.mp he with h | h
        · exact hsafe e h
        · exact hs e h
      split
      · exact ⟨hr2, hs2⟩
      · exact ⟨hr2, hs2⟩
      · split_ifs
        · refine ⟨?_, ?_⟩
          · rw [List.foldl_append, ← hr2]
            rfl
          · intro e he
            rcases List.mem_append.mp he with h | h
            · exact hs2 e h
            · rw [List.mem_singleton] at h
              rw [h]
              exact ⟨Or.inr (Or.inr (Or.inl rfl)), fun _ => Join_ne_empty _ _ (by decide)⟩
        · exact ⟨hr2, hs2⟩
        · exact ⟨hr2, hs2⟩

theorem seedLegacyData_safe (env : Env) (senv : SeedEnv) (db : DB) :
    (seedLegacyData env senv db).1 = (seedLegacyData env senv db).2.foldl applyEvent db ∧
    ∀ e ∈ (seedLegacyData env senv db).2, SafeEvent e := by
  have hfold : ∀ (items : List ManifestItem) (acc : DB × List Event),
      acc.1 = acc.2.foldl applyEvent db → (∀ e ∈ acc.2, SafeEvent e) →
      (items.foldl (seedItem env senv) acc).1 =
        (items.foldl (seedItem env senv) acc).2.foldl applyEvent db ∧
      ∀ e ∈ (items.foldl (seedItem env senv) acc).2, SafeEvent e := by
    intro items
    induction items with
    | nil => intro acc h1 h2; exact ⟨h1, h2⟩
    | cons item rest ih =>
        intro acc h1 h2
        obtain ⟨h3, h4⟩ := seedItem_safe env senv db acc item h1 h2
        exact ih _ h3 h4
  unfold seedLegacyData
  cases senv.readFile "../data/manifest.json" with
  | none => exact ⟨rfl, by simp⟩
  | some content =>
      simp only
      cases senv.parseManifest content with
      | none => exact ⟨rfl, by simp⟩
      | some articles => exact hfold articles (db, []) rfl (by simp)

/-! ## Remote client lemmas -/

theorem downloadAndExtract_never_ok (p : minimax.Provider) (url : String) (data : List Nat) :
    minimax.downloadAndExtract p url ≠ .ok data := by
  unfold minimax.downloadAndExtract
  cases p.download url <;> simp

theorem GenerateSpeech_never_ok (fuel : Nat) (p : minimax.Provider) (text : String)
    (data : List Nat) (calls : List minimax.Call) :
    minimax.GenerateSpeech fuel p text ≠ some (.ok data, calls) := by
  unfold minimax.GenerateSpeech
  cases minimax.initiateTask p text with
  | error e => simp
  | ok taskID =>
      simp only
      cases minimax.pollLoop p taskID fuel 0 with
      | none => simp
      | some r =>
          obtain ⟨res, cs⟩ := r
          cases res with
          | error e => simp
          | ok fileID =>
              simp only
              cases minimax.getDownloadURL p fileID with
              | error e => simp
              | ok url =>
                  simp only [ne_eq, Option.some.injEq, Prod.mk.injEq, not_and]
                  intro h
                  exact absurd h (downloadAndExtract_never_ok p url data)

theorem queryStatus_ignores_status_code (p : minimax.Provider) (n : Nat) (taskID : Int)
    (resp : minimax.Decoded minimax.QueryResponse) (h : p.query n taskID = .ok resp) :
    minimax.queryStatus p n taskID = .ok (resp.value.Status, resp.value.FileID) := by
  unfold minimax.queryStatus
  rw [h]

theorem getDownloadURL_ignores_status_code (p : minimax.Provider) (fileID : Int)
    (resp : minimax.Decoded minimax.RetrieveResponse) (h : p.retrieve fileID = .ok resp) :
    minimax.getDownloadURL p fileID = .ok resp.value.DownloadURL := by
  unfold minimax.getDownloadURL
  rw [h]

theorem cli_queryStatus_checks_status_code (p : minimax.Provider) (n : Nat) (taskID : Int)
    (resp : minimax.Decoded minimax.QueryResponse) (h : p.query n taskID = .ok resp)
    (hcode : resp.value.BaseResp.StatusCode ≠ 0) :
    ∃ e, cli.queryStatus p n taskID = .error e := by
  unfold cli.queryStatus
  rw [h]
  simp only
  cases resp.err with
  | some e => exact ⟨_, rfl⟩
  | none => exact ⟨_, if_pos hcode⟩

theorem cli_getDownloadURL_checks_status_code (p : minimax.Provider) (fileID : Int)
    (resp : minimax.Decoded minimax.RetrieveResponse) (h : p.retrieve fileID = .ok resp)
    (hcode : resp.value.BaseResp.StatusCode ≠ 0) :
    ∃ e, cli.getDownloadURL p fileID = .error e := by
  unfold cli.getDownloadURL
  rw [h]
  simp only
  cases resp.err with
  | some e => exact ⟨_, rfl⟩
  | none => exact ⟨_, if_pos hcode⟩

theorem initiateTask_of_nonzero (p : minimax.Provider) (text : String)
    (resp : minimax.Decoded minimax.T2AResponse) (hsub : p.submit text = .ok resp)
    (hcode : resp.value.BaseResp.StatusCode ≠ 0) :
    minimax.initiateTask p text = .error ("API Error: " ++ resp.value.BaseResp.StatusMsg) := by
  unfold minimax.initiateTask
  rw [hsub]
  simp [hcode]

theorem UpdateStatus_rows (db : DB) (id : Nat) (status audioPath : String) :
    ∀ row ∈ (UpdateStatus db id status audioPath).rows,
      row.ID = id → row.Status = status ∧ row.AudioPath = audioPath := by
  intro row hrow hid
  simp only [UpdateStatus, List.mem_map] at hrow
  obtain ⟨b, _, rfl⟩ := hrow
  by_cases h : b.ID = id
  · rw [if_pos h]
    exact ⟨rfl, rfl⟩
  · rw [if_neg h] at hid
    exact absurd hid h

/-! ## The claims -/

/-- C1: cache hit. If the lookup by `calculateHash content` finds a record
with status "completed", a non-empty audio path and an existing audio file,
`GetOrGenerateAudio` returns exactly that record with a nil error, launches no
synthesis task, creates no record, issues no status update (it performs no
effect at all) and leaves the store as it was. -/
theorem cache_hit_returns_stored (env : Env) (db : DB) (title content : String) (a : Article)
    (hfind : FindByHash db (calculateHash content) = some a)
    (hstatus : a.Status = "completed") (hpath : a.AudioPath ≠ "")
    (hfile : env.stat a.AudioPath = true) :
    (GetOrGenerateAudio env db title content).article = some a ∧
    (GetOrGenerateAudio env db title content).err = none ∧
    launchedTasks (GetOrGenerateAudio env db title content).events = [] ∧
    createdRecords (GetOrGenerateAudio env db title content).events = [] ∧
    statusUpdates (GetOrGenerateAudio env db title content).events = [] ∧
    (GetOrGenerateAudio env db title content).events = [] ∧
    (GetOrGenerateAudio env db title content).db = db := by
  rw [GetOrGenerateAudio_hit env db title content a hfind hstatus hpath hfile]
  exact ⟨rfl, rfl, rfl, rfl, rfl, rfl, rfl⟩

/-- Cache hit on the completed record for "Hello world" whose audio file exists. -/
theorem cache_hit_returns_stored_witness :
    (GetOrGenerateAudio (envWithFiles [helloPath]) (helloDB "completed" helloPath)
        "Greeting again" "Hello world").article
      = some (helloArticle 1 "completed" helloPath) ∧
    (GetOrGenerateAudio (envWithFiles [helloPath]) (helloDB "completed" helloPath)
        "Greeting again" "Hello world").events = [] :=
  have h := cache_hit_returns_stored (envWithFiles [helloPath]) (helloDB "completed" helloPath)
    "Greeting again" "Hello world" (helloArticle 1 "completed" helloPath)
    (FindByHash_helloDB _ _) rfl (by decide) (by decide)
  ⟨h.1, h.2.2.2.2.2.1⟩

/-- C2: first-seen content. If the lookup by fingerprint finds no record and
the insert succeeds, `GetOrGenerateAudio` inserts exactly one record, with the
given title and content, the SHA-256 hex fingerprint of the content as
`ContentHash`, status "pending" and an empty audio path; it launches exactly
one synthesis task, for that record, and returns that record with a nil error. -/
theorem first_seen_creates_pending (env : Env) (db : DB) (title content : String)
    (hfind : FindByHash db (calculateHash content) = none)
    (hins : env.createFault ⟨0, title, content, "", "pending", calculateHash content⟩ = none) :
    ∃ a : Article,
      a.Title = title ∧ a.Content = content ∧
      a.ContentHash = lowerHex (SHA256.sum256 (bytesOf content)) ∧
      a.Status = "pending" ∧ a.AudioPath = "" ∧
      (GetOrGenerateAudio env db title content).db.rows = db.rows ++ [a] ∧
      createdRecords (GetOrGenerateAudio env db title content).events = [a] ∧
      launchedTasks (GetOrGenerateAudio env db title content).events = [a] ∧
      statusUpdates (GetOrGenerateAudio env db title content).events = [] ∧
      (GetOrGenerateAudio env db title content).article = some a ∧
      (GetOrGenerateAudio env db title content).err = none := by
  rw [GetOrGenerateAudio_new env db title content hfind hins]
  refine ⟨⟨db.nextID, title, content, "", "pending", calculateHash content⟩,
    rfl, rfl, ?_, rfl, rfl, rfl, rfl, rfl, rfl, rfl, rfl⟩
  show calculateHash content = _
  rw [calculateHash_eq, hexEncodeToString_eq_lowerHex _ (sum256_bytes _)]

/-- First submission of "Hello world" to an empty store. -/
theorem first_seen_creates_pending_witness :
    ∃ a : Article,
      a.Title = "Greeting" ∧ a.Content = "Hello world" ∧
      a.ContentHash = lowerHex (SHA256.sum256 (bytesOf "Hello world")) ∧
      a.Status = "pending" ∧ a.AudioPath = "" ∧
      (GetOrGenerateAudio (envWithFiles []) ⟨[], 1⟩ "Greeting" "Hello world").db.rows
        = [] ++ [a] ∧
      createdRecords (GetOrGenerateAudio (envWithFiles []) ⟨[], 1⟩ "Greeting"
        "Hello world").events = [a] ∧
      launchedTasks (GetOrGenerateAudio (envWithFiles []) ⟨[], 1⟩ "Greeting"
        "Hello world").events = [a] ∧
      statusUpdates (GetOrGenerateAudio (envWithFiles []) ⟨[], 1⟩ "Greeting"
        "Hello world").events = [] ∧
      (GetOrGenerateAudio (envWithFiles []) ⟨[], 1⟩ "Greeting" "Hello world").article
        = some a ∧
      (GetOrGenerateAudio (envWithFiles []) ⟨[], 1⟩ "Greeting" "Hello world").err = none :=
  first_seen_creates_pending (envWithFiles []) ⟨[], 1⟩ "Greeting" "Hello world" rfl rfl

/-- C3: in-progress conflict. If the lookup by fingerprint finds a record with
status "processing", `GetOrGenerateAudio` returns a non-nil error ("audio is
currently processing"), launches no synthesis task, creates no record and
leaves the store unchanged. -/
theorem processing_is_conflict (env : Env) (db : DB) (title content : String) (a : Article)
    (hfind : FindByHash db (calculateHash content) = some a)
    (hstatus : a.Status = "processing") :
    (GetOrGenerateAudio env db title content).err = some "audio is currently processing" ∧
    (GetOrGenerateAudio env db title content).err ≠ none ∧
    launchedTasks (GetOrGenerateAudio env db title content).events = [] ∧
    createdRecords (GetOrGenerateAudio env db title content).events = [] ∧
    (GetOrGenerateAudio env db title content).events = [] ∧
    (GetOrGenerateAudio env db title content).db = db := by
  rw [GetOrGenerateAudio_processing env db title content a hfind hstatus]
  exact ⟨rfl, by simp, rfl, rfl, rfl, rfl⟩

/-- Resubmission of "Hello world" while its record is in status "processing". -/
theorem processing_is_conflict_witness :
    (GetOrGenerateAudio (envWithFiles []) (helloDB "processing" "") "Greeting again"
        "Hello world").err ≠ none ∧
    (GetOrGenerateAudio (envWithFiles []) (helloDB "processing" "") "Greeting again"
        "Hello world").db = helloDB "processing" "" :=
  have h := processing_is_conflict (envWithFiles []) (helloDB "processing" "")
    "Greeting again" "Hello world" (helloArticle 1 "processing" "")
    (FindByHash_helloDB _ _) rfl
  ⟨h.2.1, h.2.2.2.2.2⟩

/-- C4: retry path. If the lookup by fingerprint finds a record whose status
is "failed", or "completed" with a non-empty audio path whose file is missing,
`GetOrGenerateAudio` does not short-circuit: it creates no record, launches
exactly one synthesis task, for the found record, and returns that record,
still carrying its prior status, with a nil error; the store is untouched. -/
theorem failed_or_missing_file_retries (env : Env) (db : DB) (title content : String)
    (a : Article) (hfind : FindByHash db (calculateHash content) = some a)
    (hretry : a.Status = "failed" ∨
      (a.Status = "completed" ∧ a.AudioPath ≠ "" ∧ env.stat a.AudioPath = false)) :
    createdRecords (GetOrGenerateAudio env db title content).events = [] ∧
    launchedTasks (GetOrGenerateAudio env db title content).events = [a] ∧
    statusUpdates (GetOrGenerateAudio env db title content).events = [] ∧
    (GetOrGenerateAudio env db title content).article = some a ∧
    (GetOrGenerateAudio env db title content).err = none ∧
    (GetOrGenerateAudio env db title content).db = db := by
  have h : GetOrGenerateAudio env db title content = ⟨some a, none, db, [.goProcessTTS a]⟩ := by
    rcases hretry with hf | ⟨hc, hp, hs⟩
    · exact GetOrGenerateAudio_other env db title content a hfind
        (by rw [hf]; intro h; exact absurd h.1 (by decide)) (by rw [hf]; decide)
    · exact GetOrGenerateAudio_missing_file env db title content a hfind hc hp hs
  rw [h]
  exact ⟨rfl, rfl, rfl, rfl, rfl, rfl⟩

/-- Resubmission of "Hello world" after the audio file of its completed record was deleted. -/
theorem failed_or_missing_file_retries_witness :
    launchedTasks (GetOrGenerateAudio (envWithFiles []) (helloDB "completed" helloPath)
        "Greeting again" "Hello world").events = [helloArticle 1 "completed" helloPath] ∧
    (GetOrGenerateAudio (envWithFiles []) (helloDB "completed" helloPath)
        "Greeting again" "Hello world").article
      = some (helloArticle 1 "completed" helloPath) :=
  have h := failed_or_missing_file_retries (envWithFiles []) (helloDB "completed" helloPath)
    "Greeting again" "Hello world" (helloArticle 1 "completed" helloPath)
    (FindByHash_helloDB _ _) (Or.inr ⟨rfl, by decide, by decide⟩)
  ⟨h.2.1, h.2.2.2.1⟩

/-- C5: detached task reconciliation. For every document (its fingerprint
having at least the 8 bytes the file name takes from it) and every outcome of
the synthesis and of the file write, `processTTS` returns having called
`GenerateSpeech` exactly once and having issued exactly two status updates on
the document's id: ("processing", "") first, then ("failed", "") if the
synthesis returned an error or the write failed, and ("completed", save path)
otherwise; the store afterwards is the store with these two updates applied. -/
theorem processTTS_two_updates (tenv : TaskEnv) (db : DB) (a : Article)
    (gen : Except String (List Nat))
    (hgen : tenv.GenerateSpeech a.Content = some gen)
    (hlen : 8 ≤ a.ContentHash.utf8ByteSize) :
    ∃ path, savePath a = some path ∧
      (processTTS tenv db a).exit = .returned ∧
      synthesisCalls (processTTS tenv db a).events = [a.Content] ∧
      statusUpdates (processTTS tenv db a).events =
        [(a.ID, "processing", ""), terminalUpdate a.ID path gen tenv.writeFile] ∧
      (processTTS tenv db a).db =
        (statusUpdates (processTTS tenv db a).events).foldl
          (fun d u => UpdateStatus d u.1 u.2.1 u.2.2) db := by
  obtain ⟨path, hpath⟩ := savePath_isSome a hlen
  refine ⟨path, hpath, ?_⟩
  cases gen with
  | error e =>
      rw [processTTS_of_error tenv db a e hgen]
      exact ⟨rfl, rfl, rfl, rfl⟩
  | ok data =>
      rw [processTTS_of_ok tenv db a data path hgen hpath]
      cases hw : tenv.writeFile path data with
      | none => simp [terminalUpdate, hw, statusUpdates, synthesisCalls]
      | some e => simp [terminalUpdate, hw, statusUpdates, synthesisCalls]

/-- The detached task for the pending record of "Hello world" with a successful synthesis and write. -/
theorem processTTS_two_updates_witness :
    ∃ path, savePath (helloArticle 1 "pending" "") = some path ∧
      (processTTS (taskEnvWith (.ok [73, 68, 51])) (helloDB "pending" "")
        (helloArticle 1 "pending" "")).exit = .returned ∧
      synthesisCalls (processTTS (taskEnvWith (.ok [73, 68, 51])) (helloDB "pending" "")
        (helloArticle 1 "pending" "")).events = [(helloArticle 1 "pending" "").Content] ∧
      statusUpdates (processTTS (taskEnvWith (.ok [73, 68, 51])) (helloDB "pending" "")
        (helloArticle 1 "pending" "")).events =
        [((helloArticle 1 "pending" "").ID, "processing", ""),
         terminalUpdate (helloArticle 1 "pending" "").ID path (.ok [73, 68, 51])
           (taskEnvWith (.ok [73, 68, 51])).writeFile] ∧
      (processTTS (taskEnvWith (.ok [73, 68, 51])) (helloDB "pending" "")
        (helloArticle 1 "pending" "")).db =
        (statusUpdates (processTTS (taskEnvWith (.ok [73, 68, 51])) (helloDB "pending" "")
          (helloArticle 1 "pending" "")).events).foldl
          (fun d u => UpdateStatus d u.1 u.2.1 u.2.2) (helloDB "pending" "") :=
  processTTS_two_updates (taskEnvWith (.ok [73, 68, 51])) (helloDB "pending" "")
    (helloArticle 1 "pending" "") (.ok [73, 68, 51]) rfl (by decide)

/-- C6: state-machine safety as an invariant of the store. Starting from a
store in which every status is one of "pending", "processing", "completed",
"failed" and every completed record has a non-empty audio path, every run of
`GetOrGenerateAudio`, of `processTTS` and of `seedLegacyData` is stepwise
safe: the store after each of its inserts and status updates, and the store it
ends in, has the same two properties, and each of its writes keeps them on any
store that has them. -/
theorem store_invariant_preserved (db : DB) (hinv : StoreInv db) :
    (∀ (env : Env) (title content : String),
      StepwiseSafe db (GetOrGenerateAudio env db title content).db
        (GetOrGenerateAudio env db title content).events ∧
      StoreInv (GetOrGenerateAudio env db title content).db) ∧
    (∀ (tenv : TaskEnv) (a : Article),
      StepwiseSafe db (processTTS tenv db a).db (processTTS tenv db a).events ∧
      StoreInv (processTTS tenv db a).db) ∧
    (∀ (env : Env) (senv : SeedEnv),
      StepwiseSafe db (seedLegacyData env senv db).1 (seedLegacyData env senv db).2 ∧
      StoreInv (seedLegacyData env senv db).1) := by
  refine ⟨fun env title content => ?_, fun tenv a => ?_, fun env senv => ?_⟩
  · obtain ⟨h1, h2⟩ := GetOrGenerateAudio_safe env db title content
    exact ⟨StepwiseSafe_of_safe _ _ _ hinv h1 h2, by rw [h1]; exact StoreInv_foldl _ h2 db hinv⟩
  · obtain ⟨h1, h2⟩ := processTTS_safe tenv db a
    exact ⟨StepwiseSafe_of_safe _ _ _ hinv h1 h2, by rw [h1]; exact StoreInv_foldl _ h2 db hinv⟩
  · obtain ⟨h1, h2⟩ := seedLegacyData_safe env senv db
    exact ⟨StepwiseSafe_of_safe _ _ _ hinv h1 h2, by rw [h1]; exact StoreInv_foldl _ h2 db hinv⟩

/-- Runs starting from the store holding the completed record for "Hello world". -/
theorem store_invariant_preserved_witness :
    StoreInv (helloDB "completed" helloPath) ∧
    ((∀ (env : Env) (title content : String),
      StepwiseSafe (helloDB "completed" helloPath)
        (GetOrGenerateAudio env (helloDB "completed" helloPath) title content).db
        (GetOrGenerateAudio env (helloDB "completed" helloPath) title content).events ∧
      StoreInv (GetOrGenerateAudio env (helloDB "completed" helloPath) title content).db) ∧
    (∀ (tenv : TaskEnv) (a : Article),
      StepwiseSafe (helloDB "completed" helloPath)
        (processTTS tenv (helloDB "completed" helloPath) a).db
        (processTTS tenv (helloDB "completed" helloPath) a).events ∧
      StoreInv (processTTS tenv (helloDB "completed" helloPath) a).db) ∧
    (∀ (env : Env) (senv : SeedEnv),
      StepwiseSafe (helloDB "completed" helloPath)
        (seedLegacyData env senv (helloDB "completed" helloPath)).1
        (seedLegacyData env senv (helloDB "completed" helloPath)).2 ∧
      StoreInv (seedLegacyData env senv (helloDB "completed" helloPath)).1)) :=
  ⟨by decide, store_invariant_preserved (helloDB "completed" helloPath) (by decide)⟩

/-- C7: for every string, `calculateHash` is the lowercase hexadecimal
encoding of the SHA-256 digest of its UTF-8 bytes; the result has exactly 64
characters, all among `0-9a-f`; for `"Hello world"` (11 bytes) it is the
well-known digest `64ec88ca...7f3c`. -/
theorem calculateHash_sha256_hex (s : String) :
    calculateHash s = lowerHex (SHA256.sum256 (bytesOf s)) ∧
    (calculateHash s).length = 64 ∧
    (∀ c ∈ (calculateHash s).data, c ∈ "0123456789abcdef".data) ∧
    (bytesOf "Hello world").length = 11 ∧
    calculateHash "Hello world" =
      "64ec88ca00b268e5ba1a35678a1b5316d212f4f366b2477232534a8aeca37f3c" := by
  refine ⟨?_, calculateHash_length s, ?_, hello_bytes, hello_hash⟩
  · rw [calculateHash_eq, hexEncodeToString_eq_lowerHex _ (sum256_bytes _)]
  · intro c hc
    exact hexEncodeToString_mem _ c (by rw [calculateHash_eq] at hc; exact hc)

/-- C8 (the code departs from it): in a run in which the submit succeeds,
the second status request reports "Success" with file id 42, the retrieve for
42 returns a download URL, the download succeeds and the archive holds
`speech.mp3`, `GenerateSpeech` does call retrieve with exactly 42 and downloads
from the returned URL, but then returns the error of the unfinished
`downloadAndExtract` instead of the bytes of the entry, and `processTTS` marks
the Document "failed" with an empty audio path. -/
theorem successful_run_ends_failed :
    minimax.getDownloadURL happyProvider 42 = .ok "https://files.example/42.tar" ∧
    happyProvider.download "https://files.example/42.tar" =
      .ok [⟨"speech.mp3", .reg, [73, 68, 51]⟩] ∧
    minimax.GenerateSpeech 2 happyProvider "Hello world" =
      some (.error "tar extraction not implemented in this snippet",
        [.submit "Hello world", .query 7, .query 7, .retrieve 42,
         .download "https://files.example/42.tar"]) ∧
    statusUpdates (processTTS (taskEnvOf 2 happyProvider (fun _ _ => none))
        (helloDB "pending" "") (helloArticle 1 "pending" "")).events =
      [(1, "processing", ""), (1, "failed", "")] ∧
    (processTTS (taskEnvOf 2 happyProvider (fun _ _ => none))
        (helloDB "pending" "") (helloArticle 1 "pending" "")).db = helloDB "failed" "" := by
  refine ⟨rfl, rfl, rfl, rfl, rfl⟩

/-- C9 (the code departs from it): for a status response and a retrieve
response with a non-zero `base_resp.status_code`, `queryStatus` and
`getDownloadURL` of `pkg/minimax` return a nil error (with the empty status
and URL of the response), so `GenerateSpeech` polls again and goes on to
download from the empty URL; the same functions of the command-line client
return the provider error. -/
theorem provider_errors_pass_unnoticed :
    faultyProvider.query 0 7 = .ok ⟨⟨⟨1002, "rate limit"⟩, "", 0⟩, none⟩ ∧
    minimax.queryStatus faultyProvider 0 7 = .ok ("", 0) ∧
    cli.queryStatus faultyProvider 0 7 = .error "API Error: rate limit (Code: 1002)" ∧
    faultyProvider.retrieve 42 = .ok ⟨⟨⟨1004, "not authorized"⟩, ""⟩, none⟩ ∧
    minimax.getDownloadURL faultyProvider 42 = .ok "" ∧
    cli.getDownloadURL faultyProvider 42 = .error "API Error: not authorized (Code: 1004)" ∧
    minimax.GenerateSpeech 2 faultyProvider "Hello world" =
      some (.error "tar extraction not implemented in this snippet",
        [.submit "Hello world", .query 7, .query 7, .retrieve 42, .download ""]) := by
  refine ⟨rfl, rfl, rfl, rfl, rfl, rfl, rfl⟩

/-- C10: submit failure is hard. If the submit response carries a non-zero
`base_resp.status_code`, `initiateTask` returns an error, `GenerateSpeech`
returns that error having sent the one submit request and nothing else (no
poll, retrieve or download, no second submit), and `processTTS` on a Document
with that text issues ("processing", "") then ("failed", ""), so that the
Document ends with status "failed" and an empty audio path. -/
theorem submit_failure_is_hard (p : minimax.Provider) (text : String)
    (resp : minimax.Decoded minimax.T2AResponse) (hsub : p.submit text = .ok resp)
    (hcode : resp.value.BaseResp.StatusCode ≠ 0) :
    minimax.initiateTask p text = .error ("API Error: " ++ resp.value.BaseResp.StatusMsg) ∧
    (∀ fuel, minimax.GenerateSpeech fuel p text =
      some (.error ("API Error: " ++ resp.value.BaseResp.StatusMsg), [.submit text])) ∧
    (∀ (fuel : Nat) (writeFile : String → List Nat → Option String) (db : DB) (a : Article),
      a.Content = text →
      (processTTS (taskEnvOf fuel p writeFile) db a).exit = .returned ∧
      statusUpdates (processTTS (taskEnvOf fuel p writeFile) db a).events =
        [(a.ID, "processing", ""), (a.ID, "failed", "")] ∧
      (processTTS (taskEnvOf fuel p writeFile) db a).db = UpdateStatus db a.ID "failed" "" ∧
      ∀ row ∈ (processTTS (taskEnvOf fuel p writeFile) db a).db.rows,
        row.ID = a.ID → row.Status = "failed" ∧ row.AudioPath = "") := by
  have hinit := initiateTask_of_nonzero p text resp hsub hcode
  have hgen : ∀ fuel, minimax.GenerateSpeech fuel p text =
      some (.error ("API Error: " ++ resp.value.BaseResp.StatusMsg), [.submit text]) := by
    intro fuel
    unfold minimax.GenerateSpeech
    rw [hinit]
  refine ⟨hinit, hgen, ?_⟩
  intro fuel writeFile db a ha
  have hrun := processTTS_of_error (taskEnvOf fuel p writeFile) db a
    ("API Error: " ++ resp.value.BaseResp.StatusMsg)
    (by simp [taskEnvOf, ha, hgen fuel])
  rw [hrun, UpdateStatus_twice]
  exact ⟨rfl, rfl, rfl, UpdateStatus_rows db a.ID "failed" ""⟩

/-- A submit response with status code 1002 for the pending record of "Hello world". -/
theorem submit_failure_is_hard_witness :
    minimax.initiateTask rejectingProvider "Hello world" = .error "API Error: rate limit" ∧
    statusUpdates (processTTS (taskEnvOf 5 rejectingProvider (fun _ _ => none))
        (helloDB "pending" "") (helloArticle 1 "pending" "")).events =
      [(1, "processing", ""), (1, "failed", "")] ∧
    (processTTS (taskEnvOf 5 rejectingProvider (fun _ _ => none))
        (helloDB "pending" "") (helloArticle 1 "pending" "")).db = helloDB "failed" "" :=
  have h := submit_failure_is_hard rejectingProvider "Hello world"
    ⟨⟨⟨1002, "rate limit"⟩, 0⟩, none⟩ rfl (by decide)
  ⟨h.1, (h.2.2 5 (fun _ _ => none) (helloDB "pending" "") (helloArticle 1 "pending" "")
      rfl).2.1,
   (h.2.2 5 (fun _ _ => none) (helloDB "pending" "") (helloArticle 1 "pending" "")
      rfl).2.2.1⟩

/-! ## Polling loop lemmas -/

theorem pollLoop_step (p : minimax.Provider) (taskID : Int) (fuel n : Nat)
    (h : terminalPoll (p.query n taskID) = false) :
    minimax.pollLoop p taskID (fuel + 1) n =
      match minimax.pollLoop p taskID fuel (n + 1) with
      | none => none
      | some (r, calls) => some (r, .query taskID :: calls) := by
  cases hq : p.query n taskID with
  | error e => rw [hq] at h; simp [terminalPoll] at h
  | ok resp =>
      rw [hq] at h
      simp only [terminalPoll, Bool.or_eq_false_iff] at h
      simp only [minimax.pollLoop, minimax.queryStatus, hq, h.1, h.2]
      rfl

theorem pollLoop_stop (p : minimax.Provider) (taskID : Int) (fuel n : Nat)
    (h : terminalPoll (p.query n taskID) = true) :
    minimax.pollLoop p taskID (fuel + 1) n =
      some (pollOutcome (p.query n taskID), [.query taskID]) := by
  cases hq : p.query n taskID with
  | error e => simp [minimax.pollLoop, minimax.queryStatus, hq, pollOutcome]
  | ok resp =>
      rw [hq] at h
      simp only [terminalPoll, Bool.or_eq_true] at h
      by_cases hs : (resp.value.Status == "Success") = true
      · simp [minimax.pollLoop, minimax.queryStatus, hq, pollOutcome, hs]
      · have hf : (resp.value.Status == "Failed") = true := by
          rcases h with h | h
          · exact absurd h hs
          · exact h
        simp only [Bool.not_eq_true] at hs
        simp [minimax.pollLoop, minimax.queryStatus, hq, pollOutcome, hs, hf]

theorem pollLoop_first_terminal (p : minimax.Provider) (taskID : Int) :
    ∀ (n fuel k : Nat), n < fuel →
      terminalPoll (p.query (k + n) taskID) = true →
      (∀ j < n, terminalPoll (p.query (k + j) taskID) = false) →
      minimax.pollLoop p taskID fuel k =
        some (pollOutcome (p.query (k + n) taskID), List.replicate (n + 1) (.query taskID)) := by
  intro n
  induction n with
  | zero =>
      intro fuel k hfuel hterm _
      obtain ⟨f, rfl⟩ : ∃ f, fuel = f + 1 := ⟨fuel - 1, by omega⟩
      exact pollLoop_stop p taskID f k hterm
  | succ n ih =>
      intro fuel k hfuel hterm hnon
      obtain ⟨f, rfl⟩ : ∃ f, fuel = f + 1 := ⟨fuel - 1, by omega⟩
      have h0 : terminalPoll (p.query k taskID) = false := hnon 0 (by omega)
      rw [pollLoop_step p taskID f k h0]
      have hrec := ih f (k + 1) (by omega)
        (by rw [show k + 1 + n = k + (n + 1) by omega]; exact hterm)
        (fun j hj => by
          rw [show k + 1 + j = k + (j + 1) by omega]
          exact hnon (j + 1) (by omega))
      rw [hrec, show k + 1 + n = k + (n + 1) by omega]
      rfl

theorem pollLoop_running (p : minimax.Provider) (taskID : Int) :
    ∀ (fuel k : Nat), (∀ j < fuel, terminalPoll (p.query (k + j) taskID) = false) →
      minimax.pollLoop p taskID fuel k = none := by
  intro fuel
  induction fuel with
  | zero => intro k _; rfl
  | succ f ih =>
      intro k hnon
      rw [pollLoop_step p taskID f k (hnon 0 (by omega))]
      rw [ih (k + 1) (fun j hj => by
        rw [show k + 1 + j = k + (j + 1) by omega]
        exact hnon (j + 1) (by omega))]

theorem exists_first_terminal (p : minimax.Provider) (taskID : Int) (m : Nat)
    (h : terminalPoll (p.query m taskID) = true) : ∃ n, firstTerminalAt p taskID n := by
  classical
  have hex : ∃ n, terminalPoll (p.query n taskID) = true := ⟨m, h⟩
  refine ⟨Nat.find hex, Nat.find_spec hex, fun k hk => ?_⟩
  have := Nat.find_min hex hk
  simpa using this

theorem pollRequests_replicate (taskID : Int) (n : Nat) (rest : List minimax.Call)
    (hrest : pollRequests rest = []) :
    pollRequests (List.replicate n (.query taskID) ++ rest) = List.replicate n taskID := by
  induction n with
  | zero => simpa using hrest
  | succ n ih => simp [List.replicate_succ, pollRequests, ih]

theorem retrieveRequests_replicate (taskID : Int) (n : Nat) (rest : List minimax.Call) :
    retrieveRequests (List.replicate n (.query taskID) ++ rest) = retrieveRequests rest := by
  induction n with
  | zero => simp
  | succ n ih => simp [List.replicate_succ, retrieveRequests, ih]

theorem GenerateSpeech_of_poll (p : minimax.Provider) (text : String) (taskID : Int)
    (fuel : Nat) (r : Except String Int) (calls : List minimax.Call)
    (hsub : minimax.initiateTask p text = .ok taskID)
    (hpoll : minimax.pollLoop p taskID fuel 0 = some (r, calls)) :
    ∃ res rest, minimax.GenerateSpeech fuel p text = some (res, .submit text :: calls ++ rest) ∧
      pollRequests rest = [] ∧
      (∀ e, r = .error e → res = .error e ∧ rest = []) ∧
      (∀ fileID, r = .ok fileID → retrieveRequests rest = [fileID]) := by
  unfold minimax.GenerateSpeech
  rw [hsub]
  simp only [hpoll]
  cases r with
  | error e =>
      refine ⟨.error e, [], by simp, rfl, ?_, ?_⟩
      · intro e2 h
        cases h
        exact ⟨rfl, rfl⟩
      · intro f h
        cases h
  | ok fileID =>
      simp only
      cases hurl : minimax.getDownloadURL p fileID with
      | error e =>
          refine ⟨.error e, [.retrieve fileID], by simp, rfl, ?_, ?_⟩
          · intro e2 h
            cases h
          · intro f h
            cases h
            rfl
      | ok url =>
          refine ⟨minimax.downloadAndExtract p url, [.retrieve fileID, .download url],
            by simp, rfl, ?_, ?_⟩
          · intro e2 h
            cases h
          · intro f h
            cases h
            rfl

/-- C13: poll loop outcome. After a successful submit that returned `taskID`,
if the first terminal status result (status "Success", status "Failed" or a
transport error) occurs at index `n`, then `GenerateSpeech`, given room for
more than `n` iterations, returns having issued exactly `n + 1` status
requests, all for `taskID`; for "Failed" or an error it returns an error and
never calls retrieve; for "Success" it calls retrieve exactly once, with the
file id of that same result; with room for at most `n` iterations it is still
polling. Every other status is non-terminal (see `terminalPoll`), so the loop
terminates if and only if a terminal result eventually occurs. -/
theorem poll_loop_outcome (p : minimax.Provider) (text : String) (taskID : Int)
    (hsub : minimax.initiateTask p text = .ok taskID) :
    (∀ n, firstTerminalAt p taskID n →
      (∀ fuel, n < fuel → ∃ res calls,
        minimax.GenerateSpeech fuel p text = some (res, calls) ∧
        pollRequests calls = List.replicate (n + 1) taskID ∧
        (∀ e, pollOutcome (p.query n taskID) = .error e →
          res = .error e ∧ retrieveRequests calls = []) ∧
        (∀ fileID, pollOutcome (p.query n taskID) = .ok fileID →
          retrieveRequests calls = [fileID])) ∧
      (∀ fuel, fuel ≤ n → minimax.GenerateSpeech fuel p text = none)) ∧
    ((∃ fuel, minimax.GenerateSpeech fuel p text ≠ none) ↔
      ∃ n, terminalPoll (p.query n taskID) = true) ∧
    terminalPoll (.ok ⟨⟨⟨0, ""⟩, "Processing", 0⟩, none⟩) = false ∧
    terminalPoll (.ok ⟨⟨⟨0, ""⟩, "", 0⟩, none⟩) = false := by
  have hrun : ∀ n, firstTerminalAt p taskID n → ∀ fuel, fuel ≤ n →
      minimax.GenerateSpeech fuel p text = none := by
    intro n hn fuel hfuel
    have h := pollLoop_running p taskID fuel 0 (fun j hj => by
      rw [Nat.zero_add]
      exact hn.2 j (by omega))
    unfold minimax.GenerateSpeech
    rw [hsub]
    simp only [h]
  have hstop : ∀ n, firstTerminalAt p taskID n → ∀ fuel, n < fuel → ∃ res calls,
      minimax.GenerateSpeech fuel p text = some (res, calls) ∧
      pollRequests calls = List.replicate (n + 1) taskID ∧
      (∀ e, pollOutcome (p.query n taskID) = .error e →
        res = .error e ∧ retrieveRequests calls = []) ∧
      (∀ fileID, pollOutcome (p.query n taskID) = .ok fileID →
        retrieveRequests calls = [fileID]) := by
    intro n hn fuel hfuel
    have h := pollLoop_first_terminal p taskID n fuel 0 hfuel
      (by rw [Nat.zero_add]; exact hn.1)
      (fun j hj => by rw [Nat.zero_add]; exact hn.2 j hj)
    rw [Nat.zero_add] at h
    obtain ⟨res, rest, hg, hp, he, ho⟩ := GenerateSpeech_of_poll p text taskID fuel _ _ hsub h
    refine ⟨res, _, hg, ?_, ?_, ?_⟩
    · show pollRequests (List.replicate (n + 1) (minimax.Call.query taskID) ++ rest) = _
      exact pollRequests_replicate taskID (n + 1) rest hp
    · intro e hout
      obtain ⟨h1, h2⟩ := he e hout
      refine ⟨h1, ?_⟩
      show retrieveRequests (List.replicate (n + 1) (minimax.Call.query taskID) ++ rest) = _
      rw [retrieveRequests_replicate, h2]
      rfl
    · intro fileID hout
      show retrieveRequests (List.replicate (n + 1) (minimax.Call.query taskID) ++ rest) = _
      rw [retrieveRequests_replicate]
      exact ho fileID hout
  refine ⟨fun n hn => ⟨hstop n hn, hrun n hn⟩, ⟨?_, ?_⟩, rfl, rfl⟩
  · rintro ⟨fuel, hne⟩
    by_contra hno
    have hall : ∀ j, terminalPoll (p.query j taskID) = false := by
      intro j
      cases ht : terminalPoll (p.query j taskID) with
      | false => rfl
      | true => exact absurd ⟨j, ht⟩ hno
    apply hne
    unfold minimax.GenerateSpeech
    rw [hsub]
    simp only [pollLoop_running p taskID fuel 0 (fun j _ => hall (0 + j))]
  · rintro ⟨m, hm⟩
    obtain ⟨n, hn⟩ := exists_first_terminal p taskID m hm
    obtain ⟨res, calls, hg, _⟩ := hstop n hn (n + 1) (by omega)
    exact ⟨n + 1, by rw [hg]; simp⟩

/-- The run in which the second status request is the first terminal one
("Success" with file id 42) for task 7. -/
theorem poll_loop_outcome_witness :
    (∃ res calls, minimax.GenerateSpeech 2 happyProvider "Hello world" = some (res, calls) ∧
      pollRequests calls = [7, 7] ∧ retrieveRequests calls = [42]) ∧
    minimax.GenerateSpeech 1 happyProvider "Hello world" = none :=
  have h := (poll_loop_outcome happyProvider "Hello world" 7 rfl).1 1
    ⟨rfl, fun k hk => by
      have hk0 : k = 0 := by omega
      rw [hk0]
      rfl⟩
  ⟨by
    obtain ⟨res, calls, hg, hp, _, ho⟩ := h.1 2 (by omega)
    exact ⟨res, calls, hg, hp, ho 42 rfl⟩,
   h.2 1 (by omega)⟩

/-! ## Resubmission lemmas -/

theorem firstByID_eq_none (l : List Article) (h : firstByID l = none) : l = [] := by
  cases l with
  | nil => rfl
  | cons x rest =>
      simp only [firstByID] at h
      cases hr : firstByID rest with
      | none => rw [hr] at h; cases h
      | some b =>
          rw [hr] at h
          simp only at h
          split_ifs at h

theorem FindByHash_after_insert (db : DB) (a : Article) (n : Nat)
    (hnone : FindByHash db a.ContentHash = none) :
    FindByHash ⟨db.rows ++ [a], n⟩ a.ContentHash = some a := by
  have hnil := firstByID_eq_none _ hnone
  unfold FindByHash
  simp only [List.filter_append, hnil, List.nil_append]
  simp [List.filter, firstByID]

theorem GetOrGenerateAudio_fall_through (env : Env) (db : DB) (title content : String)
    (a : Article) (hfind : FindByHash db (calculateHash content) = some a)
    (hproc : a.Status ≠ "processing")
    (hhit : ¬ (a.Status = "completed" ∧ a.AudioPath ≠ "" ∧ env.stat a.AudioPath = true)) :
    GetOrGenerateAudio env db title content = ⟨some a, none, db, [.goProcessTTS a]⟩ := by
  by_cases hc : a.Status = "completed" ∧ a.AudioPath ≠ ""
  · have hs : env.stat a.AudioPath = false := by
      cases h : env.stat a.AudioPath with
      | false => rfl
      | true => exact absurd ⟨hc.1, hc.2, h⟩ hhit
    exact GetOrGenerateAudio_missing_file env db title content a hfind hc.1 hc.2 hs
  · exact GetOrGenerateAudio_other env db title content a hfind hc hproc

/-- C14: unlisted statuses fall through to generation. If the lookup by
fingerprint finds a record whose status is "pending", or "completed" with an
empty audio path, or anything other than "processing" and a cache-hit
"completed", `GetOrGenerateAudio` creates no record, launches a synthesis task
for the found record and returns it with a nil error, the store untouched. In
particular, submitting first-seen content and then the same content again,
before the first task has marked the record "processing", launches a second
task for the same pending record. -/
theorem unlisted_status_falls_through (env : Env) (db : DB) (title content : String) :
    (∀ a : Article, FindByHash db (calculateHash content) = some a →
      (a.Status = "pending" ∨ (a.Status = "completed" ∧ a.AudioPath = "") ∨
        (a.Status ≠ "processing" ∧
          ¬ (a.Status = "completed" ∧ a.AudioPath ≠ "" ∧ env.stat a.AudioPath = true))) →
      createdRecords (GetOrGenerateAudio env db title content).events = [] ∧
      launchedTasks (GetOrGenerateAudio env db title content).events = [a] ∧
      (GetOrGenerateAudio env db title content).article = some a ∧
      (GetOrGenerateAudio env db title content).err = none ∧
      (GetOrGenerateAudio env db title content).db = db) ∧
    (∀ title2 : String, FindByHash db (calculateHash content) = none →
      env.createFault ⟨0, title, content, "", "pending", calculateHash content⟩ = none →
      ∃ a : Article, a.Status = "pending" ∧
        launchedTasks (GetOrGenerateAudio env db title content).events = [a] ∧
        launchedTasks (GetOrGenerateAudio env
          (GetOrGenerateAudio env db title content).db title2 content).events = [a] ∧
        createdRecords (GetOrGenerateAudio env
          (GetOrGenerateAudio env db title content).db title2 content).events = [] ∧
        (GetOrGenerateAudio env
          (GetOrGenerateAudio env db title content).db title2 content).article = some a ∧
        (GetOrGenerateAudio env
          (GetOrGenerateAudio env db title content).db title2 content).err = none) := by
  have hfall : ∀ (d : DB) (t : String) (a : Article),
      FindByHash d (calculateHash content) = some a → a.Status ≠ "processing" →
      ¬ (a.Status = "completed" ∧ a.AudioPath ≠ "" ∧ env.stat a.AudioPath = true) →
      createdRecords (GetOrGenerateAudio env d t content).events = [] ∧
      launchedTasks (GetOrGenerateAudio env d t content).events = [a] ∧
      (GetOrGenerateAudio env d t content).article = some a ∧
      (GetOrGenerateAudio env d t content).err = none ∧
      (GetOrGenerateAudio env d t content).db = d := by
    intro d t a hfind hproc hhit
    rw [GetOrGenerateAudio_fall_through env d t content a hfind hproc hhit]
    exact ⟨rfl, rfl, rfl, rfl, rfl⟩
  refine ⟨?_, ?_⟩
  · intro a hfind hcase
    rcases hcase with hp | ⟨hc, he⟩ | ⟨hproc, hhit⟩
    · exact hfall db title a hfind (by rw [hp]; decide)
        (by rw [hp]; intro h; exact absurd h.1 (by decide))
    · exact hfall db title a hfind (by rw [hc]; decide) (fun h => h.2.1 he)
    · exact hfall db title a hfind hproc hhit
  · intro title2 hnone hins
    rw [GetOrGenerateAudio_new env db title content hnone hins]
    have hfind := FindByHash_after_insert db
      ⟨db.nextID, title, content, "", "pending", calculateHash content⟩ (db.nextID + 1) hnone
    obtain ⟨h1, h2, h3, h4, _⟩ := hfall _ title2 _ hfind
      (by show "pending" ≠ "processing"; decide)
      (fun h => absurd h.1 (by show ¬ "pending" = "completed"; decide))
    exact ⟨_, rfl, rfl, h2, h1, h3, h4⟩

/-- Resubmission of "Hello world" while its record is still "pending", and a
double submission of "Hello world" to an empty store. -/
theorem unlisted_status_falls_through_witness :
    launchedTasks (GetOrGenerateAudio (envWithFiles []) (helloDB "pending" "") "Greeting"
        "Hello world").events = [helloArticle 1 "pending" ""] ∧
    (∃ a : Article, a.Status = "pending" ∧
      launchedTasks (GetOrGenerateAudio (envWithFiles []) ⟨[], 1⟩ "Greeting"
        "Hello world").events = [a] ∧
      launchedTasks (GetOrGenerateAudio (envWithFiles [])
        (GetOrGenerateAudio (envWithFiles []) ⟨[], 1⟩ "Greeting" "Hello world").db
        "Greeting again" "Hello world").events = [a]) :=
  ⟨((unlisted_status_falls_through (envWithFiles []) (helloDB "pending" "") "Greeting"
      "Hello world").1 (helloArticle 1 "pending" "") (FindByHash_helloDB _ _)
      (Or.inl rfl)).2.1,
   by
    obtain ⟨a, h1, h2, h3, _⟩ := (unlisted_status_falls_through (envWithFiles []) ⟨[], 1⟩
      "Greeting" "Hello world").2 "Greeting again" rfl rfl
    exact ⟨a, h1, h2, h3⟩⟩

/-! ## Archive extraction lemmas -/

theorem getLast?_cons_map_getD {α β : Type} (f : α → β) (a : α) (l : List α) (acc : β) :
    (((a :: l).getLast?).map f).getD acc = ((l.getLast?).map f).getD (f a) := by
  rw [List.getLast?_cons]
  cases l.getLast? <;> rfl

theorem find?_eq_head?_filter {α : Type} (p : α → Bool) (l : List α) :
    l.find? p = (l.filter p).head? := by
  induction l with
  | nil => rfl
  | cons a rest ih =>
      cases h : p a with
      | true => rw [List.find?_cons_of_pos _ h, List.filter_cons_of_pos h, List.head?_cons]
      | false =>
          rw [List.find?_cons_of_neg _ (by simp [h]), List.filter_cons_of_neg (by simp [h]), ih]

theorem extractEntries_ok (fs : cli.FsEnv) (destDir : String)
    (hmk : ∀ path, fs.mkdirAll path = none) (hcreate : ∀ path, fs.create path = none)
    (hcopy : ∀ path data, fs.copy path data = none) :
    ∀ (entries : List minimax.TarEntry) (mp3Path : String),
      cli.extractEntries fs destDir none entries mp3Path =
        .ok ((lastAudioTarget destDir entries).getD mp3Path) := by
  intro entries
  induction entries with
  | nil => intro mp3Path; rfl
  | cons header rest ih =>
      intro mp3Path
      obtain ⟨name, flag, data⟩ := header
      cases flag with
      | dir =>
          have ha : isAudioEntry ⟨name, .dir, data⟩ = false := rfl
          simp only [cli.extractEntries, hmk, ih]
          simp only [lastAudioTarget, List.filter, ha]
      | other =>
          have ha : isAudioEntry ⟨name, .other, data⟩ = false := rfl
          simp only [cli.extractEntries, ih]
          simp only [lastAudioTarget, List.filter, ha]
      | reg =>
          simp only [cli.extractEntries, hmk, hcreate, hcopy, ih]
          by_cases hs : HasSuffix name ".mp3" = true
          · have ha : isAudioEntry ⟨name, .reg, data⟩ = true := by simp [isAudioEntry, hs]
            simp only [lastAudioTarget, List.filter, ha, hs, if_true]
            rw [getLast?_cons_map_getD]
          · have ha : isAudioEntry ⟨name, .reg, data⟩ = false := by simp [isAudioEntry, hs]
            simp only [lastAudioTarget, List.filter, ha, hs]
            rfl

/-- C11 as stated fails: on an archive with two regular ".mp3" files that is
read and extracted without error, `extractTar` returns the target path of the
second, `../data/out/speech.mp3`, whereas the first regular-file entry whose
name ends in ".mp3" has target path `../data/out/intro.mp3`. -/
theorem extractTar_not_first_audio :
    cli.extractTar (healthyFs "../data/output.tar" twoTrackArchive) "../data/output.tar"
      "../data" = .ok "../data/out/speech.mp3" ∧
    firstAudioTarget "../data" twoTrackArchive = some "../data/out/intro.mp3" ∧
    cli.extractTar (healthyFs "../data/output.tar" twoTrackArchive) "../data/output.tar"
      "../data" ≠ .ok "../data/out/intro.mp3" := by
  have h : cli.extractTar (healthyFs "../data/output.tar" twoTrackArchive)
      "../data/output.tar" "../data" = .ok "../data/out/speech.mp3" := by rfl
  refine ⟨h, by rfl, ?_⟩
  rw [h]
  intro hc
  injection hc with hc
  exact absurd hc (by decide)

/-- C11, amended: for every destination directory and every archive that is
read to its end and extracted without error, `extractTar` returns the target
path (destination directory joined with the entry name) of the last
regular-file entry whose name ends in ".mp3", and the empty string when there
is no such entry; when the archive has exactly one such entry, that is the
target path of the first one. -/
theorem extractTar_returns_last_audio (fs : cli.FsEnv) (tarPath destDir : String)
    (tar : cli.TarStream) (hopen : fs.openTar tarPath = .ok tar) (hread : tar.readErr = none)
    (hmk : ∀ path, fs.mkdirAll path = none) (hcreate : ∀ path, fs.create path = none)
    (hcopy : ∀ path data, fs.copy path data = none) :
    cli.extractTar fs tarPath destDir = .ok ((lastAudioTarget destDir tar.entries).getD "") ∧
    (∀ e, tar.entries.filter isAudioEntry = [e] →
      cli.extractTar fs tarPath destDir = .ok (filepath.Join [destDir, e.Name]) ∧
      firstAudioTarget destDir tar.entries = some (filepath.Join [destDir, e.Name])) := by
  have hmain : cli.extractTar fs tarPath destDir =
      .ok ((lastAudioTarget destDir tar.entries).getD "") := by
    unfold cli.extractTar
    rw [hopen]
    simp only [hread]
    exact extractEntries_ok fs destDir hmk hcreate hcopy tar.entries ""
  refine ⟨hmain, ?_⟩
  intro e he
  refine ⟨?_, ?_⟩
  · rw [hmain]
    simp [lastAudioTarget, he]
  · unfold firstAudioTarget
    rw [find?_eq_head?_filter, he]
    rfl

/-- Extraction of the archive with two audio files. -/
theorem extractTar_returns_last_audio_witness :
    cli.extractTar (healthyFs "../data/output.tar" twoTrackArchive) "../data/output.tar"
      "../data" = .ok ((lastAudioTarget "../data" twoTrackArchive).getD "") :=
  (extractTar_returns_last_audio (healthyFs "../data/output.tar" twoTrackArchive)
    "../data/output.tar" "../data" ⟨twoTrackArchive, none⟩ rfl rfl
    (fun _ => rfl) (fun _ => rfl) (fun _ _ => rfl)).1

/-! ## Artifact naming lemmas -/


theorem digitChar_mem (k : Nat) (h : k < 10) : Nat.digitChar k ∈ decimalDigits := by
  interval_cases k <;> decide

theorem digitChar_value (k : Nat) (h : k < 10) : (Nat.digitChar k).toNat - 48 = k := by
  interval_cases k <;> rfl

theorem toDigitsCore_mem : ∀ (fuel n : Nat) (ds : List Char) (c : Char),
    c ∈ Nat.toDigitsCore 10 fuel n ds → c ∈ ds ∨ c ∈ decimalDigits := by
  intro fuel
  induction fuel with
  | zero => intro n ds c h; exact Or.inl h
  | succ f ih =>
      intro n ds c h
      simp only [Nat.toDigitsCore] at h
      split_ifs at h
      · rcases List.mem_cons.mp h with h | h
        · exact Or.inr (h ▸ digitChar_mem _ (Nat.mod_lt _ (by decide)))
        · exact Or.inl h
      · rcases ih _ _ _ h with h | h
        · rcases List.mem_cons.mp h with h | h
          · exact Or.inr (h ▸ digitChar_mem _ (Nat.mod_lt _ (by decide)))
          · exact Or.inl h
        · exact Or.inr h

theorem decode_toDigitsCore : ∀ (fuel n : Nat) (ds : List Char), n < fuel →
    decodeDecimal 0 (Nat.toDigitsCore 10 fuel n ds) = decodeDecimal n ds := by
  intro fuel
  induction fuel with
  | zero => intro n ds h; omega
  | succ f ih =>
      intro n ds h
      simp only [Nat.toDigitsCore]
      have hv := digitChar_value (n % 10) (Nat.mod_lt _ (by decide))
      split_ifs with h0
      · simp only [decodeDecimal, List.foldl_cons, hv]
        congr 1
        omega
      · rw [ih (n / 10) _ (by omega)]
        simp only [decodeDecimal, List.foldl_cons, hv]
        congr 1
        omega

theorem repr_mem_digits (n : Nat) : ∀ c ∈ (toString n).data, c ∈ decimalDigits := by
  intro c hc
  have h : c ∈ Nat.toDigitsCore 10 (n + 1) n [] := hc
  rcases toDigitsCore_mem _ _ _ _ h with h | h
  · cases h
  · exact h

theorem repr_decode (n : Nat) : decodeDecimal 0 (toString n).data = n :=
  decode_toDigitsCore (n + 1) n [] (by omega)

theorem repr_injective (a b : Nat) (h : toString a = toString b) : a = b := by
  rw [← repr_decode a, ← repr_decode b, h]

theorem append_sep_inj {α : Type} (x : α) : ∀ (l1 l2 r1 r2 : List α),
    x ∉ l1 → x ∉ l2 → l1 ++ x :: r1 = l2 ++ x :: r2 → l1 = l2 := by
  intro l1
  induction l1 with
  | nil =>
      intro l2 r1 r2 _ h2 h
      cases l2 with
      | nil => rfl
      | cons b l2 =>
          simp only [List.nil_append, List.cons_append, List.cons.injEq] at h
          exact absurd (h.1 ▸ List.mem_cons_self _ _) h2
  | cons a l1 ih =>
      intro l2 r1 r2 h1 h2 h
      cases l2 with
      | nil =>
          simp only [List.nil_append, List.cons_append, List.cons.injEq] at h
          exact absurd (h.1 ▸ List.mem_cons_self _ _) h1
      | cons b l2 =>
          simp only [List.cons_append, List.cons.injEq] at h
          rw [h.1, ih l2 r1 r2 (fun hm => h1 (List.mem_cons_of_mem _ hm))
            (fun hm => h2 (List.mem_cons_of_mem _ hm)) h.2]



theorem splitOnSep_no_sep : ∀ (l : List Char), '/' ∉ l → filepath.splitOnSep l = [l] := by
  intro l
  induction l with
  | nil => intro _; rfl
  | cons c rest ih =>
      intro h
      have hc : c ≠ '/' := fun e => h (e ▸ List.mem_cons_self _ _)
      have hr : '/' ∉ rest := fun hm => h (List.mem_cons_of_mem _ hm)
      simp only [filepath.splitOnSep, if_neg hc, ih hr]

theorem splitOnSep_append_sep : ∀ (l r : List Char), '/' ∉ l →
    filepath.splitOnSep (l ++ '/' :: r) = l :: filepath.splitOnSep r := by
  intro l
  induction l with
  | nil => intro r _; simp [filepath.splitOnSep]
  | cons c rest ih =>
      intro r h
      have hc : c ≠ '/' := fun e => h (e ▸ List.mem_cons_self _ _)
      have hr : '/' ∉ rest := fun hm => h (List.mem_cons_of_mem _ hm)
      have e : (c :: rest) ++ '/' :: r = c :: (rest ++ '/' :: r) := rfl
      rw [e]
      simp only [filepath.splitOnSep, if_neg hc, ih r hr]

theorem cleanChars_managed (fn : List Char) (hsep : '/' ∉ fn) (h0 : fn ≠ [])
    (h1 : fn ≠ ['.']) (h2 : fn ≠ ['.', '.']) :
    filepath.cleanChars ("data/audio/".data ++ fn) = "data/audio/".data ++ fn := by
  have hsplit : filepath.splitOnSep ("data/audio/".data ++ fn) =
      ["data".data, "audio".data, fn] := by
    have e : "data/audio/".data ++ fn = "data".data ++ '/' :: ("audio".data ++ '/' :: fn) := rfl
    rw [e, splitOnSep_append_sep _ _ (by decide), splitOnSep_append_sep _ _ (by decide),
      splitOnSep_no_sep fn hsep]
  unfold filepath.cleanChars
  simp only [hsplit]
  have hhead : ("data/audio/".data ++ fn).head? = some 'd' := rfl
  simp only [hhead]
  simp [filepath.cleanStep, h0, h1, h2, List.intercalate]

theorem Join_managed (fname : String) (hsep : '/' ∉ fname.data) (h0 : fname.data ≠ [])
    (h1 : fname.data ≠ ['.']) (h2 : fname.data ≠ ['.', '.']) :
    filepath.Join ["data", "audio", fname] = "data/audio/" ++ fname := by
  have hj : "/".intercalate ["data", "audio", fname] = "data/audio/" ++ fname := by
    apply String.ext
    simp [String.intercalate, String.intercalate.go, String.data_append]
  have hd : ("data/audio/" ++ fname).data = "data/audio/".data ++ fname.data :=
    String.data_append _ _
  unfold filepath.Join
  simp only [List.dropWhile, show ("data" == "") = false from rfl, hj]
  unfold filepath.Clean
  simp only [hd, cleanChars_managed fname.data hsep h0 h1 h2]
  rw [if_neg (by simp)]
  apply String.ext
  rw [hd]


theorem takeBytes_ascii : ∀ (l : List Char) (n : Nat), (∀ c ∈ l, c.utf8Size = 1) →
    takeBytes l n = l.take n := by
  intro l
  induction l with
  | nil => intro n _; cases n <;> rfl
  | cons c rest ih =>
      intro n h
      have hc : c.utf8Size = 1 := h c (List.mem_cons_self _ _)
      have hr : ∀ x ∈ rest, x.utf8Size = 1 := fun x hx => h x (List.mem_cons_of_mem _ hx)
      cases n with
      | zero => simp [takeBytes, hc]
      | succ n => simp [takeBytes, hc, ih n hr]

theorem slicePrefix_fingerprint (h : String) (hf : IsFingerprint h) :
    slicePrefix h 8 = some (String.mk (h.data.take 8)) := by
  have hs : h.utf8ByteSize = h.data.length := utf8ByteSize_go_hex h.data hf.2
  have hl : h.data.length = 64 := hf.1
  unfold slicePrefix
  rw [if_pos (by omega), takeBytes_ascii h.data 8 (fun c hc => hextable_utf8Size c (hf.2 c hc))]

theorem fileName_data (id : Nat) (h8 : List Char) :
    ("audio_" ++ toString id ++ "_" ++ String.mk h8 ++ ".mp3").data =
      "audio_".data ++ (toString id).data ++ '_' :: (h8 ++ ".mp3".data) := by
  simp [String.data_append]

theorem fileName_no_sep (id : Nat) (h8 : List Char) (hh : ∀ c ∈ h8, c ∈ hextable) :
    '/' ∉ ("audio_" ++ toString id ++ "_" ++ String.mk h8 ++ ".mp3").data := by
  rw [fileName_data]
  intro hm
  simp only [List.mem_append, List.mem_cons] at hm
  rcases hm with (hm | hm) | hm | hm | hm
  · exact absurd hm (by decide)
  · exact absurd (repr_mem_digits id _ hm) (by decide)
  · exact absurd hm (by decide)
  · exact absurd (hh _ hm) (by decide)
  · exact absurd hm (by decide)

theorem fileName_real (id : Nat) (h8 : List Char) :
    ("audio_" ++ toString id ++ "_" ++ String.mk h8 ++ ".mp3").data ≠ [] ∧
    ("audio_" ++ toString id ++ "_" ++ String.mk h8 ++ ".mp3").data ≠ ['.'] ∧
    ("audio_" ++ toString id ++ "_" ++ String.mk h8 ++ ".mp3").data ≠ ['.', '.'] := by
  rw [fileName_data]
  refine ⟨?_, ?_, ?_⟩ <;> intro h <;> cases h

theorem savePath_fingerprint (a : Article) (hf : IsFingerprint a.ContentHash) :
    savePath a = some ("data/audio/" ++
      ("audio_" ++ toString a.ID ++ "_" ++ String.mk (a.ContentHash.data.take 8) ++ ".mp3")) := by
  unfold savePath
  rw [slicePrefix_fingerprint _ hf]
  simp only
  have hh : ∀ c ∈ a.ContentHash.data.take 8, c ∈ hextable :=
    fun c hc => hf.2 c (List.mem_of_mem_take hc)
  obtain ⟨h0, h1, h2⟩ := fileName_real a.ID (a.ContentHash.data.take 8)
  rw [Join_managed _ (fileName_no_sep a.ID _ hh) h0 h1 h2]

theorem savePath_injective_id (a b : Article) (ha : IsFingerprint a.ContentHash)
    (hb : IsFingerprint b.ContentHash) (h : savePath a = savePath b) : a.ID = b.ID := by
  rw [savePath_fingerprint a ha, savePath_fingerprint b hb] at h
  simp only [Option.some.injEq] at h
  have key : ∀ x : Article, ("data/audio/" ++ ("audio_" ++ toString x.ID ++ "_" ++
      String.mk (x.ContentHash.data.take 8) ++ ".mp3")).data =
      "data/audio/".data ++ ("audio_".data ++ (toString x.ID).data ++
        '_' :: (x.ContentHash.data.take 8 ++ ".mp3".data)) :=
    fun x => (String.data_append _ _).trans (congrArg _ (fileName_data _ _))
  have hd := congrArg String.data h
  rw [key a, key b] at hd
  have hd2 := List.append_cancel_left hd
  rw [List.append_assoc, List.append_assoc] at hd2
  have hd3 := List.append_cancel_left hd2
  have hsep : ∀ n : Nat, '_' ∉ (toString n).data :=
    fun n hm => absurd (repr_mem_digits n _ hm) (by decide)
  have hdig := append_sep_inj '_' _ _ _ _ (hsep a.ID) (hsep b.ID) hd3
  exact repr_injective a.ID b.ID (String.ext hdig)

theorem calculateHash_isFingerprint (s : String) : IsFingerprint (calculateHash s) :=
  ⟨calculateHash_length s,
   fun c hc => hexEncodeToString_mem _ c (by rw [calculateHash_eq] at hc; exact hc)⟩

theorem managedPath_eq (id : Nat) (fingerprint : String) :
    managedPath id fingerprint = "data/audio/" ++
      ("audio_" ++ toString id ++ "_" ++ String.mk (fingerprint.data.take 8) ++ ".mp3") := by
  unfold managedPath
  apply String.ext
  simp [String.data_append]

/-- Off the fingerprints, the file name alone does not keep paths apart: with
path separators in the first 8 characters the record id is cleaned away. -/
theorem savePath_collides_off_fingerprint :
    slashedHash.length = 64 ∧
    savePath ⟨1, "", "", "", "pending", slashedHash⟩ = some "data/x.mp3" ∧
    savePath ⟨2, "", "", "", "pending", slashedHash⟩ = some "data/x.mp3" := by
  decide

/-- C12: collision-free artifact naming. For a Document with a fingerprint (64
characters from `0-9a-f`) the save path computed by `processTTS` is
"data/audio/audio_<decimal record id>_<first 8 characters of the
fingerprint>.mp3", which is what a successful task records; the path depends
on the record id and the fingerprint only; two Documents with distinct record
ids have different save paths. -/
theorem savePath_collision_free :
    (∀ a : Article, IsFingerprint a.ContentHash →
      savePath a = some (managedPath a.ID a.ContentHash)) ∧
    (∀ (tenv : TaskEnv) (db : DB) (a : Article) (data : List Nat),
      IsFingerprint a.ContentHash → tenv.GenerateSpeech a.Content = some (.ok data) →
      tenv.writeFile (managedPath a.ID a.ContentHash) data = none →
      statusUpdates (processTTS tenv db a).events =
        [(a.ID, "processing", ""), (a.ID, "completed", managedPath a.ID a.ContentHash)]) ∧
    (∀ a b : Article, a.ID = b.ID → a.ContentHash = b.ContentHash →
      savePath a = savePath b) ∧
    (∀ a b : Article, IsFingerprint a.ContentHash → IsFingerprint b.ContentHash →
      a.ID ≠ b.ID →
      savePath a ≠ savePath b ∧
      managedPath a.ID a.ContentHash ≠ managedPath b.ID b.ContentHash) := by
  have hpath : ∀ a : Article, IsFingerprint a.ContentHash →
      savePath a = some (managedPath a.ID a.ContentHash) := by
    intro a hf
    rw [managedPath_eq]
    exact savePath_fingerprint a hf
  refine ⟨hpath, ?_, ?_, ?_⟩
  · intro tenv db a data hf hgen hw
    rw [processTTS_of_ok tenv db a data _ hgen (hpath a hf), hw]
    rfl
  · intro a b hid hh
    unfold savePath
    rw [hid, hh]
  · intro a b ha hb hne
    have h1 : savePath a ≠ savePath b := fun h => hne (savePath_injective_id a b ha hb h)
    refine ⟨h1, fun h => h1 ?_⟩
    rw [hpath a ha, hpath b hb, h]

/-- The save path of record 1 for "Hello world". -/
theorem savePath_collision_free_witness :
    savePath (helloArticle 1 "pending" "") =
      some (managedPath (helloArticle 1 "pending" "").ID
        (helloArticle 1 "pending" "").ContentHash) ∧
    savePath (helloArticle 1 "pending" "") ≠ savePath (helloArticle 2 "pending" "") :=
  ⟨savePath_collision_free.1 (helloArticle 1 "pending" "") (by decide),
   (savePath_collision_free.2.2.2 (helloArticle 1 "pending" "") (helloArticle 2 "pending" "")
      (by decide) (by decide) (by decide)).1⟩

end VoicePaper
